import Mathlib

/-!
Shallow embedding of the BrickTablePlanner sources (template.py, minifig.py,
digits.py, context.py, main.py) in Lean 4, together with proofs about the
claims of the specification.

Modelling conventions:
* Python strings are modelled as `List Char` (`Str`); `str.strip`, `str.split`
  and `str.startswith` are modelled character by character for the ASCII
  whitespace characters Python treats as separators.
* Python numbers are modelled as exact rationals (`ℚ`); Python `int(...)` and
  `float(...)` conversions of decimal tokens are modelled by `pyInt`/`pyFloat`
  (the plain decimal forms these sources produce and consume; exotic float
  syntax such as exponents or "inf" is out of scope and rejected).
* Python `round` (banker's rounding, returning an int) is modelled by `rnd`.
* The f-string formatting of numeric fields in `to_line` is modelled by
  `numRepr`, which prints an exact decimal expansion of the value.
* In-place mutation of part lists is modelled by state passing: a function
  that receives the (mutable) list of parts returns the post-state of that
  list alongside its result.
-/

/-- Python strings, modelled as lists of characters. -/
abbrev Str := List Char

/-- The ASCII whitespace characters recognised by Python's `str.split()` /
`str.strip()`. -/
def pyIsSpace (c : Char) : Bool :=
  c = ' ' || c = '\t' || c = '\n' || c = '\r' || c = '\x0b' || c = '\x0c'

/-- Model of Python `str.strip()`: drop leading and trailing whitespace. -/
def pyStrip (s : Str) : Str :=
  ((s.dropWhile pyIsSpace).reverse.dropWhile pyIsSpace).reverse

/-- Accumulator loop behind `pySplit`; `acc` holds the current word reversed. -/
def splitAux : Str → Str → List Str
  | [], acc => if acc = [] then [] else [acc.reverse]
  | c :: cs, acc =>
    if pyIsSpace c then
      (if acc = [] then splitAux cs [] else acc.reverse :: splitAux cs [])
    else splitAux cs (c :: acc)

/-- Model of Python `str.split()` with no argument: split on runs of
whitespace, never producing empty tokens. -/
def pySplit (s : Str) : List Str := splitAux s []

/-- Value of a string of decimal digit characters. -/
def digitsVal (s : Str) : ℕ := s.foldl (fun a c => a * 10 + (c.toNat - 48)) 0

/-- Parse an unsigned decimal natural number; `none` when empty or
containing a non-digit. -/
def natVal (s : Str) : Option ℕ :=
  if s ≠ [] ∧ s.all Char.isDigit then some (digitsVal s) else none

/-- Model of Python `int(token)` for plain decimal tokens. -/
def pyInt (s : Str) : Option ℤ :=
  match s with
  | [] => none
  | c :: r =>
    if c = '-' then (natVal r).map (fun v => -(v : ℤ))
    else if c = '+' then (natVal r).map (fun v => (v : ℤ))
    else (natVal (c :: r)).map (fun v => (v : ℤ))

/-- Model of Python `float(token)` for the plain decimal forms occurring in
these sources: optional sign, integer digits, optional fraction digits. -/
def pyFloat (s : Str) : Option ℚ :=
  match s with
  | [] => none
  | c0 :: r0 =>
    let neg := c0 = '-'
    let r : Str := if c0 = '-' || c0 = '+' then r0 else c0 :: r0
    let ip := r.takeWhile Char.isDigit
    let r2 := r.dropWhile Char.isDigit
    let fp := if r2.head? = some '.' then (r2.drop 1).takeWhile Char.isDigit else []
    let r3 := if r2.head? = some '.' then (r2.drop 1).dropWhile Char.isDigit else r2
    if r3 = [] ∧ (ip ≠ [] ∨ fp ≠ []) then
      let v : ℚ := ((digitsVal ip : ℚ) * (10 : ℚ) ^ fp.length + (digitsVal fp : ℚ)) / (10 : ℚ) ^ fp.length
      some (if neg then -v else v)
    else none

/-- Decimal representation of a natural number. -/
def natRepr (m : ℕ) : Str :=
  if m = 0 then ['0'] else (Nat.digits 10 m).reverse.map Nat.digitChar

/-- Decimal representation of an integer (model of Python `str(int)`). -/
def intRepr (n : ℤ) : Str :=
  if n < 0 then '-' :: natRepr n.natAbs else natRepr n.natAbs

/-- Left-pad a digit string with zeros up to width `k`. -/
def padZeros (k : ℕ) (s : Str) : Str := List.replicate (k - s.length) '0' ++ s

/-- Decimal representation of a rational with 10-smooth denominator: the model
of Python's f-string formatting of the numeric fields in `to_line`.  Values
are printed exactly (possibly with trailing zeros); integer values print with
no decimal point, matching the Python `int` fields a normalized template
carries after `round`. -/
def numRepr (q : ℚ) : Str :=
  if q.den = 1 then intRepr q.num
  else
    let k := q.den
    let m := q.num.natAbs * 10 ^ k / q.den
    (if q.num < 0 then ['-'] else []) ++
      natRepr (m / 10 ^ k) ++ '.' :: padZeros k (natRepr (m % 10 ^ k))

/-- Minimal representation of an LDraw type-1 line (class `LDrawType1` of
template.py; minifig.py contains an identical duplicate of this class). -/
@[ext]
structure LDrawType1 where
  color : ℤ
  x : ℚ
  y : ℚ
  z : ℚ
  a : ℚ
  b : ℚ
  c : ℚ
  d : ℚ
  e : ℚ
  f : ℚ
  g : ℚ
  h : ℚ
  i : ℚ
  part_id : Str
deriving DecidableEq

/-- Serialization `LDrawType1.to_line`: the f-string
`"1 {color} {x} {y} {z} {a} ... {i} {part_id}"`. -/
def LDrawType1.to_line (p : LDrawType1) : Str :=
  '1' :: ' ' :: (intRepr p.color ++ ' ' :: numRepr p.x ++ ' ' :: numRepr p.y
    ++ ' ' :: numRepr p.z ++ ' ' :: numRepr p.a ++ ' ' :: numRepr p.b
    ++ ' ' :: numRepr p.c ++ ' ' :: numRepr p.d ++ ' ' :: numRepr p.e
    ++ ' ' :: numRepr p.f ++ ' ' :: numRepr p.g ++ ' ' :: numRepr p.h
    ++ ' ' :: numRepr p.i ++ ' ' :: p.part_id)

/-- The two ways `LDrawType1.parse` can raise a `ValueError`: the explicit
"Not a type-1 line" check, and a failing `int(...)`/`float(...)` conversion
inside the constructor. -/
inductive ParseErr where
  | notType1 : ParseErr
  | badNum : ParseErr
deriving DecidableEq

/-- Field extraction and conversion of `LDrawType1.parse`, applied to the
token list `line.strip().split()`.  The source checks
`len(parts) < 15 or parts[0] != "1"`, then converts fields
`parts[1] .. parts[14]`; any token past the 15th is ignored. -/
def parseTokens : List Str → Except ParseErr LDrawType1
  | t0 :: t1 :: t2 :: t3 :: t4 :: t5 :: t6 :: t7 :: t8 :: t9 :: tA :: tB :: tC :: tD :: tE :: _ =>
    if t0 = ['1'] then
      match pyInt t1, pyFloat t2, pyFloat t3, pyFloat t4, pyFloat t5, pyFloat t6,
          pyFloat t7, pyFloat t8, pyFloat t9, pyFloat tA, pyFloat tB, pyFloat tC,
          pyFloat tD with
      | some color, some x, some y, some z, some a, some b, some c, some d,
          some e, some f, some g, some h, some i =>
        Except.ok ⟨color, x, y, z, a, b, c, d, e, f, g, h, i, tE⟩
      | _, _, _, _, _, _, _, _, _, _, _, _, _ => Except.error ParseErr.badNum
    else Except.error ParseErr.notType1
  | _ => Except.error ParseErr.notType1

/-- Parser `LDrawType1.parse`: split the stripped line on whitespace and
convert the first 15 tokens. -/
def LDrawType1.parse (line : Str) : Except ParseErr LDrawType1 :=
  parseTokens (pySplit (pyStrip line))

/-- Error kinds of `load_template`: a record-level `ValueError` propagated
from `LDrawType1.parse`, or the "No type-1 lines found" `ValueError`. -/
inductive LoadErr where
  | record : ParseErr → LoadErr
  | empty : LoadErr
deriving DecidableEq

/-- Whether `load_template` parses a given raw line: after stripping, the line
is non-empty, does not start with "0", and starts with "1 " (with a space). -/
def keepLine (raw : Str) : Bool :=
  let r := pyStrip raw
  if r = [] || ['0'].isPrefixOf r then false
  else ['1', ' '].isPrefixOf r

/-- The line loop of `load_template`: skip blank lines, comment lines and
lines not starting with "1 "; parse the rest, stopping at the first failure. -/
def collectRecords : List Str → Except ParseErr (List LDrawType1)
  | [] => Except.ok []
  | raw :: rest =>
    let r := pyStrip raw
    if r = [] || ['0'].isPrefixOf r then collectRecords rest
    else if ['1', ' '].isPrefixOf r then
      match LDrawType1.parse r, collectRecords rest with
      | Except.ok p, Except.ok ps => Except.ok (p :: ps)
      | Except.error e, _ => Except.error e
      | _, Except.error e => Except.error e
    else collectRecords rest

/-- Loader `load_template` of template.py, applied to the list of lines of the
source text (`read_text().splitlines()`). -/
def load_template (lines : List Str) : Except LoadErr (List LDrawType1) :=
  match collectRecords lines with
  | Except.error e => Except.error (LoadErr.record e)
  | Except.ok [] => Except.error LoadErr.empty
  | Except.ok ps => Except.ok ps

/-- Model of Python's built-in `round` on exact rationals: round to the
nearest integer, ties to the even neighbour (banker's rounding). -/
def rnd (q : ℚ) : ℤ :=
  let n := ⌊q⌋
  if q - n < 1/2 then n
  else if 1/2 < q - n then n + 1
  else if n % 2 = 0 then n else n + 1

/-- The default `epsilon=1e-5` of `normalize_template_inplace` (every caller
uses the default). -/
def default_epsilon : ℚ := 1/100000

/-- The matrix-cleanup helper `clean` of `normalize_template_inplace`: snap
values within `eps` of 0, 1, −1 to that exact value. -/
def clean (eps v : ℚ) : ℚ :=
  if |v| < eps then 0
  else if |v - 1| < eps then 1
  else if |v + 1| < eps then -1
  else v

/-- The loop body of `normalize_template_inplace` applied to one part:
recenter x/z, round the coordinates with `round`, clean the orientation
matrix entries. -/
def normalizeStep (cx cz : ℚ) (p : LDrawType1) : LDrawType1 :=
  { p with
    x := ((rnd (p.x - cx) : ℤ) : ℚ)
    y := ((rnd p.y : ℤ) : ℚ)
    z := ((rnd (p.z - cz) : ℤ) : ℚ)
    a := clean default_epsilon p.a
    b := clean default_epsilon p.b
    c := clean default_epsilon p.c
    d := clean default_epsilon p.d
    e := clean default_epsilon p.e
    f := clean default_epsilon p.f
    g := clean default_epsilon p.g
    h := clean default_epsilon p.h
    i := clean default_epsilon p.i }

/-- Normalizer `normalize_template_inplace` of template.py, in state-passing
form: the returned list is the post-state of the mutated part list.  It
computes the x/z centroid and applies `normalizeStep` to every part. -/
def normalize_template_inplace (parts : List LDrawType1) : List LDrawType1 :=
  if parts = [] then parts
  else
    let cx := (parts.map (fun p => p.x)).sum / (parts.length : ℚ)
    let cz := (parts.map (fun p => p.z)).sum / (parts.length : ℚ)
    parts.map (normalizeStep cx cz)

/-- One LDraw unit per stud (context.py). -/
def STUD : ℚ := 20

/-- Plate height in LDraw units (context.py). -/
def PLATE_HEIGHT : ℚ := 8

/-- Thickness of the 32x32 baseplate in LDraw units (context.py). -/
def BASEPLATE_THICKNESS : ℚ := 8

/-- Scene coordinate helper `SceneContext` of context.py. -/
structure SceneContext where
  ground_y : ℚ
deriving DecidableEq

/-- Conversion from studs to LDraw units. -/
def SceneContext.studs (ctx : SceneContext) (v : ℚ) : ℚ := v * STUD

/-- Y coordinate used to place the origin of the baseplate. -/
def SceneContext.baseplate_origin_y (ctx : SceneContext) : ℚ :=
  ctx.ground_y + BASEPLATE_THICKNESS / 2

/-- Y coordinate used to place plates and tiles sitting on the baseplate. -/
def SceneContext.baseplate_top_origin_y (ctx : SceneContext) : ℚ :=
  ctx.ground_y - BASEPLATE_THICKNESS / 2

/-- Part reference of the 1x1 plate used for digit pixels (digits.py). -/
def PLATE_1x1 : Str := "3024.dat".toList

/-- The 5x7 digit bitmaps `DIGITS_5x7` of digits.py, keyed by character. -/
def DIGITS_5x7 (ch : Char) : Option (List Str) :=
  if ch = '1' then some
    ["..#..".toList, ".##..".toList, "..#..".toList, "..#..".toList,
     "..#..".toList, "..#..".toList, ".###.".toList]
  else if ch = '2' then some
    [".###.".toList, "#...#".toList, "....#".toList, "..##.".toList,
     ".#...".toList, "#....".toList, "#####".toList]
  else if ch = '3' then some
    ["####.".toList, "....#".toList, "..##.".toList, "....#".toList,
     "....#".toList, "#...#".toList, ".###.".toList]
  else if ch = '4' then some
    ["#..#.".toList, "#..#.".toList, "#..#.".toList, "#####".toList,
     "...#.".toList, "...#.".toList, "...#.".toList]
  else if ch = '5' then some
    ["#####".toList, "#....".toList, "####.".toList, "....#".toList,
     "....#".toList, "#...#".toList, ".###.".toList]
  else if ch = '6' then some
    [".###.".toList, "#....".toList, "####.".toList, "#...#".toList,
     "#...#".toList, "#...#".toList, ".###.".toList]
  else if ch = '7' then some
    ["#####".toList, "....#".toList, "...#.".toList, "..#..".toList,
     ".#...".toList, "#....".toList, "#....".toList]
  else if ch = '8' then some
    [".###.".toList, "#...#".toList, "#...#".toList, ".###.".toList,
     "#...#".toList, "#...#".toList, ".###.".toList]
  else if ch = '9' then some
    [".###.".toList, "#...#".toList, "#...#".toList, ".####".toList,
     "....#".toList, "...#.".toList, ".##..".toList]
  else if ch = '0' then some
    [".###.".toList, "#...#".toList, "#..##".toList, "#.#.#".toList,
     "##..#".toList, "#...#".toList, ".###.".toList]
  else none

/-- Errors of `render_text_5x7`: empty text, or a character missing from the
digit table. -/
inductive DigitsErr where
  | emptyText : DigitsErr
  | unsupportedChar : Char → DigitsErr
deriving DecidableEq

/-- Look up the glyph of every character, reporting the first unsupported
character (the validation loop of `render_text_5x7`). -/
def lookupGlyphs : Str → Except DigitsErr (List (List Str))
  | [] => Except.ok []
  | ch :: rest =>
    match DIGITS_5x7 ch, lookupGlyphs rest with
    | none, _ => Except.error (DigitsErr.unsupportedChar ch)
    | some g, Except.ok gs => Except.ok (g :: gs)
    | some _, Except.error e => Except.error e

/-- Concatenate glyph bitmaps row by row, inserting `gap` columns of '.'
between adjacent glyphs but not after the last (the assembly loop of
`render_text_5x7`). -/
def renderConcat (gap : ℕ) : List (List Str) → List Str
  | [] => List.replicate 7 []
  | [g] => g
  | g :: rest => List.zipWith (fun a b => a ++ List.replicate gap '.' ++ b) g (renderConcat gap rest)

/-- Renderer `render_text_5x7` of digits.py. -/
def render_text_5x7 (text : Str) (gap : ℕ) : Except DigitsErr (List Str) :=
  if text = [] then Except.error DigitsErr.emptyText
  else (lookupGlyphs text).map (renderConcat gap)

/-- Numeric payload of one emitted type-1 placement line. -/
structure PlacedPart where
  color : ℤ
  x : ℚ
  y : ℚ
  z : ℚ
  part : Str
deriving DecidableEq

/-- Placement routine `build_centered_digit` of digits.py: render the digit
string, apply the half-stud correction to the pixel-grid centering, and emit
one 1x1 plate per filled pixel (rows flipped vertically). -/
def build_centered_digit (ctx : SceneContext) (text : Str)
    (center_stud_x center_stud_z : ℚ) (color : ℤ) : Except DigitsErr (List PlacedPart) :=
  (render_text_5x7 text 1).map (fun matrix =>
    let height := matrix.length
    let width := (matrix.headD []).length
    let half_stud : ℚ := 1/2
    let origin_x := center_stud_x - ((width : ℚ) - 1)/2 + half_stud
    let origin_z := center_stud_z - ((height : ℚ) - 1)/2 + half_stud
    (matrix.enum.map (fun row =>
      (row.2.enum.map (fun px =>
        if px.2 = '#' then
          [{ color := color
             x := ctx.studs (origin_x + (px.1 : ℚ))
             y := ctx.baseplate_top_origin_y
             z := ctx.studs (origin_z + ((height : ℚ) - 1 - (row.1 : ℚ)))
             part := PLATE_1x1 : PlacedPart }]
        else [])).flatten)).flatten)

/-- How `build_minifig` can fail on an empty template: Python raises an
unchecked `ZeroDivisionError` computing the centroid.  `emptyAssembly` is the
dedicated error kind the specification names; the code never raises it. -/
inductive BuildErr where
  | zeroDivision : BuildErr
  | emptyAssembly : BuildErr
deriving DecidableEq

/-- The fixed rotation tuple `R` of `build_minifig` (rotate −90° around Y). -/
def minifig_R : List ℚ := [0, 0, -1, 0, 1, 0, 1, 0, 0]

/-- First loop of `build_minifig`: rotate each part's centroid-relative
position.  The loop body only reads the part, so each part is returned
unchanged in the post-state. -/
def minifigPass1 (cx cz : ℚ) : List LDrawType1 → List LDrawType1 × List (LDrawType1 × ℚ × ℚ × ℚ)
  | [] => ([], [])
  | p :: rest =>
    let nx := p.x - cx
    let ny := p.y
    let nz := p.z - cz
    let rx := minifig_R.getD 0 0 * nx + minifig_R.getD 1 0 * ny + minifig_R.getD 2 0 * nz
    let ry := minifig_R.getD 3 0 * nx + minifig_R.getD 4 0 * ny + minifig_R.getD 5 0 * nz
    let rz := minifig_R.getD 6 0 * nx + minifig_R.getD 7 0 * ny + minifig_R.getD 8 0 * nz
    let out := minifigPass1 cx cz rest
    (p :: out.1, (p, rx, ry, rz) :: out.2)

/-- Second loop of `build_minifig`: translate positions and rotate each
orientation matrix, emitting one type-1 record per part (the code emits the
corresponding f-string line; we record its fields). -/
def minifigPass2 (dx dy dz : ℚ) (ts : List (LDrawType1 × ℚ × ℚ × ℚ)) : List LDrawType1 :=
  ts.map (fun t =>
    { color := t.1.color
      x := t.2.1 + dx
      y := t.2.2.1 + dy
      z := t.2.2.2 + dz
      a := minifig_R.getD 0 0 * t.1.a + minifig_R.getD 1 0 * t.1.d + minifig_R.getD 2 0 * t.1.g
      b := minifig_R.getD 0 0 * t.1.b + minifig_R.getD 1 0 * t.1.e + minifig_R.getD 2 0 * t.1.h
      c := minifig_R.getD 0 0 * t.1.c + minifig_R.getD 1 0 * t.1.f + minifig_R.getD 2 0 * t.1.i
      d := minifig_R.getD 3 0 * t.1.a + minifig_R.getD 4 0 * t.1.d + minifig_R.getD 5 0 * t.1.g
      e := minifig_R.getD 3 0 * t.1.b + minifig_R.getD 4 0 * t.1.e + minifig_R.getD 5 0 * t.1.h
      f := minifig_R.getD 3 0 * t.1.c + minifig_R.getD 4 0 * t.1.f + minifig_R.getD 5 0 * t.1.i
      g := minifig_R.getD 6 0 * t.1.a + minifig_R.getD 7 0 * t.1.d + minifig_R.getD 8 0 * t.1.g
      h := minifig_R.getD 6 0 * t.1.b + minifig_R.getD 7 0 * t.1.e + minifig_R.getD 8 0 * t.1.h
      i := minifig_R.getD 6 0 * t.1.c + minifig_R.getD 7 0 * t.1.f + minifig_R.getD 8 0 * t.1.i
      part_id := t.1.part_id })

/-- Placement routine `build_minifig` of minifig.py, in state-passing form:
the first component is the post-state of the template part list, the second
the result.  On an empty template Python raises `ZeroDivisionError` at
`cx = sum(...) / len(parts)`; that exception is modelled by
`BuildErr.zeroDivision`. -/
def build_minifig (ctx : SceneContext) (template : List LDrawType1)
    (stud_x stud_z : ℚ) : List LDrawType1 × Except BuildErr (List LDrawType1) :=
  if template = [] then (template, Except.error BuildErr.zeroDivision)
  else
    let cx := (template.map (fun p => p.x)).sum / (template.length : ℚ)
    let cz := (template.map (fun p => p.z)).sum / (template.length : ℚ)
    let dx := ctx.studs stud_x
    let dz := ctx.studs stud_z
    let dy := ctx.baseplate_origin_y - 30
    let st := minifigPass1 cx cz template
    (st.1, Except.ok (minifigPass2 dx dy dz st.2))

/-- Frame width in studs (`build_group_frame` of main.py). -/
def frame_width : ℕ := 32

/-- Frame height in studs (`build_group_frame` of main.py). -/
def frame_height : ℕ := 30

/-- The fixed decomposition of the 32-stud horizontal side (`32 = 12+12+8`). -/
def horizontal_segments : List ℕ := [12, 12, 8]

/-- The fixed decomposition of the 28-stud inset vertical side
(`30 - 2 = 28 = 12+12+4`). -/
def vertical_segments : List ℕ := [12, 12, 4]

/-- One `build_plate` / `build_plate_rotated` call of `build_group_frame`:
orientation, centre position in studs, and plate length. -/
structure Seg where
  horiz : Bool
  x : ℚ
  z : ℚ
  len : ℕ
deriving DecidableEq

/-- A horizontal run of plates: starting at `x0`, place each segment centred
at `x_start + (length-1)/2` and advance the cursor by the segment length. -/
def runH (z0 x0 : ℚ) : List ℕ → List Seg
  | [] => []
  | L :: rest => ⟨true, x0 + ((L : ℚ) - 1)/2, z0, L⟩ :: runH z0 (x0 + (L : ℚ)) rest

/-- A vertical run of plates, advancing in z. -/
def runV (x0 z0 : ℚ) : List ℕ → List Seg
  | [] => []
  | L :: rest => ⟨false, x0, z0 + ((L : ℚ) - 1)/2, L⟩ :: runV x0 (z0 + (L : ℚ)) rest

/-- Frame builder `build_group_frame` of main.py: top and bottom horizontal
runs over the full width, left and right vertical runs starting one stud
inset from the bottom corner.  Each `Seg` records the arguments of the
corresponding `build_plate(_rotated)` call. -/
def build_group_frame (cx cz : ℚ) : List Seg :=
  let left := cx - ((frame_width : ℚ) - 1)/2
  let right := left + ((frame_width : ℚ) - 1)
  let bottom := cz - ((frame_height : ℚ) - 1)/2
  let top := bottom + ((frame_height : ℚ) - 1)
  runH bottom left horizontal_segments ++ runH top left horizontal_segments
    ++ runV left (bottom + 1) vertical_segments ++ runV right (bottom + 1) vertical_segments

/-- The stud cells covered by one placed 1xN plate: a plate of length `L`
centred at `c` covers the `L` consecutive cells starting at `c - (L-1)/2`. -/
def segCells (s : Seg) : List (ℚ × ℚ) :=
  if s.horiz then
    (List.range s.len).map (fun (j : ℕ) => (s.x - ((s.len : ℚ) - 1)/2 + (j : ℚ), s.z))
  else
    (List.range s.len).map (fun (j : ℕ) => (s.x, s.z - ((s.len : ℚ) - 1)/2 + (j : ℚ)))

/-- All stud cells covered by the frame, in emission order. -/
def frameCells (cx cz : ℚ) : List (ℚ × ℚ) :=
  ((build_group_frame cx cz).map segCells).flatten

/-- The group-placement loop of `build_groups_grid` (main.py): walk the grid
cells in row-major order carrying the 1-based `group_index`.  The source
`break`s once `group_index` exceeds 10; since the index never decreases, the
break is modelled by skipping every remaining cell. -/
def build_groups_grid_cellsAux (cols rows : ℕ) : List (ℕ × ℕ) → ℕ → List (ℕ × ℤ × ℤ)
  | [], _ => []
  | rc :: rest, gi =>
    if gi > 10 then build_groups_grid_cellsAux cols rows rest gi
    else
      let center_x : ℤ := if gi = 10 then ((cols / 2 : ℕ) : ℤ) * 32 else (rc.2 : ℤ) * 32
      let center_z : ℤ := ((rows : ℤ) - 1 - (rc.1 : ℤ) - 1) * 32
      (gi, center_x, center_z) :: build_groups_grid_cellsAux cols rows rest (gi + 1)

/-- The sequence of `(group_index, center_x, center_z)` triples (centres in
studs) with which `build_groups_grid` calls `build_group`. -/
def build_groups_grid_cells (cols rows : ℕ) : List (ℕ × ℤ × ℤ) :=
  build_groups_grid_cellsAux cols rows
    (((List.range rows).map (fun r => (List.range cols).map (fun c => (r, c)))).flatten) 1

/-- A fully well-formed type-1 line (identity orientation, part "p"). -/
def demoGoodLine : Str := "1 16 3 -24 0 1 0 0 0 1 0 0 0 1 3001.dat".toList

/-- A line with 15 tokens whose first token is "1" but whose color field "a"
fails Python's `int(...)` conversion. -/
def demoBadLine : Str := "1 a 0 0 0 0 0 0 0 0 0 0 0 0 p".toList

/-- A concrete scene context with the reference plane at `ground_y = 0`, as
constructed by `main()`. -/
def demoCtx : SceneContext := ⟨0⟩

/-- A concrete one-part template used to instantiate universally quantified
theorems. -/
def demoPart : LDrawType1 :=
  { color := 16, x := 7/5, y := 1/5, z := -3, a := 1, b := 1/100000000, c := 0,
    d := 0, e := 1, f := 0, g := 0, h := 0, i := 1, part_id := ['p'] }

/-- Join tokens with single spaces (the shape of the `to_line` f-string). -/
def joinSp : List Str → Str
  | [] => []
  | [t] => t
  | t :: ts => t ++ ' ' :: joinSp ts

/-- A rational that is the value of an integer (the form taken by the
position fields of a normalized template, which Python stores as `int`). -/
def IntValued (q : ℚ) : Prop := ∃ n : ℤ, q = (n : ℚ)

/-- A rational with a finite decimal expansion.  Every value representable as
a Python binary float is of this form, so this captures the numeric fields an
actual `LDrawType1` object can carry. -/
def FiniteDec (q : ℚ) : Prop := ∃ (n : ℤ) (k : ℕ), q = (n : ℚ) / 10 ^ k

/-- A concrete placement with integer position, finite-decimal orientation and
a plain part reference, used to instantiate the round-trip theorem. -/
def rtPart : LDrawType1 :=
  { color := 16, x := 3, y := -24, z := 0, a := 1, b := -1/2, c := 0,
    d := 0, e := 1, f := 0, g := 0, h := 0, i := 1, part_id := "3001.dat".toList }

/-- Sequential parsing of a list of lines, stopping at the first failure:
the shape of the record loop of `load_template` once skipped lines are
filtered out. -/
def mapE (g : Str → Except ParseErr LDrawType1) : List Str → Except ParseErr (List LDrawType1)
  | [] => Except.ok []
  | a :: l =>
    match g a, mapE g l with
    | Except.ok p, Except.ok ps => Except.ok (p :: ps)
    | Except.error e, _ => Except.error e
    | _, Except.error e => Except.error e

/-! ## Theorems -/

theorem minifigPass1_fst (cx cz : ℚ) (l : List LDrawType1) : (minifigPass1 cx cz l).1 = l := by
  induction l with
  | nil => rfl
  | cons p rest ih =>
    simp only [minifigPass1]
    rw [ih]

/-- C3: with 3 columns (and the 5-row grid of `main`), `build_groups_grid`
places exactly 10 groups; groups 1-9 go row-major to rows 0-2 and columns 0-2
(group k has `center_x = ((k-1) mod 3) * 32` studs and sits on logical row
`(k-1) div 3`), and group 10 is forced to the centre column of its row
(`center_x = 1 * 32`), not column 0. -/
theorem groups_grid_row_major_last_centered :
    build_groups_grid_cells 3 5 =
      [(1, 0, 96), (2, 32, 96), (3, 64, 96), (4, 0, 64), (5, 32, 64), (6, 64, 64),
       (7, 0, 32), (8, 32, 32), (9, 64, 32), (10, 32, 0)] ∧
    (∀ e ∈ build_groups_grid_cells 3 5,
      (e.1 ≤ 9 → e.2.1 = (((e.1 - 1) % 3 : ℕ) : ℤ) * 32 ∧
        e.2.2 = (3 - (((e.1 - 1) / 3 : ℕ) : ℤ)) * 32) ∧
      (e.1 = 10 → e.2.1 = 1 * 32)) := by
  constructor
  · rfl
  · decide

theorem groups_grid_row_major_last_centered_witness :
    (build_groups_grid_cells 3 5).length = 10 := by
  rw [groups_grid_row_major_last_centered.1]
  rfl

/-- C8 counterexample: on an empty template, `build_minifig` does not fail
with the dedicated `EmptyAssemblyError` the claim describes; it fails with
the unrelated `ZeroDivisionError` raised by `sum(...) / len(parts)`. -/
theorem build_minifig_empty_not_empty_assembly_error :
    (build_minifig demoCtx [] 0 0).2 = Except.error BuildErr.zeroDivision ∧
    (build_minifig demoCtx [] 0 0).2 ≠ Except.error BuildErr.emptyAssembly := by
  constructor
  · rfl
  · intro hcontra
    exact BuildErr.noConfusion (Except.error.inj hcontra)

/-- C8 amended: `build_minifig` called with an empty template always fails,
but with the unchecked division-by-zero arising in the centroid computation
(Python `ZeroDivisionError`), not with a dedicated descriptive
`EmptyAssemblyError` (no such check exists in the code). -/
theorem build_minifig_empty_raises_zero_division
    (ctx : SceneContext) (sx sz : ℚ) :
    (build_minifig ctx [] sx sz).2 = Except.error BuildErr.zeroDivision := rfl

theorem build_minifig_empty_raises_zero_division_witness :
    (build_minifig ⟨5⟩ [] 1 2).2 = Except.error BuildErr.zeroDivision :=
  build_minifig_empty_raises_zero_division ⟨5⟩ 1 2

/-- C9: `build_minifig` never mutates its input template: the post-state of
the part list equals the input list (every field of every part unchanged),
so the same template gives identical results when reused for further
placement calls. -/
theorem build_minifig_preserves_template
    (ctx : SceneContext) (template : List LDrawType1) (sx sz : ℚ) :
    (build_minifig ctx template sx sz).1 = template ∧
    (∀ sx2 sz2 : ℚ,
      (build_minifig ctx (build_minifig ctx template sx sz).1 sx2 sz2).2 =
        (build_minifig ctx template sx2 sz2).2) := by
  have hfst : (build_minifig ctx template sx sz).1 = template := by
    unfold build_minifig
    split
    · rfl
    · exact minifigPass1_fst _ _ template
  exact ⟨hfst, fun sx2 sz2 => by rw [hfst]⟩

theorem build_minifig_preserves_template_witness :
    (build_minifig demoCtx [demoPart] 3 4).1 = [demoPart] :=
  (build_minifig_preserves_template demoCtx [demoPart] 3 4).1

theorem renderConcat_single (gap : ℕ) (g : List Str) : renderConcat gap [g] = g := rfl

theorem build_centered_digit_one_eval :
    build_centered_digit demoCtx ['1'] 0 0 15 = Except.ok
      [⟨15, 10, -4, 70, PLATE_1x1⟩, ⟨15, -10, -4, 50, PLATE_1x1⟩, ⟨15, 10, -4, 50, PLATE_1x1⟩,
       ⟨15, 10, -4, 30, PLATE_1x1⟩, ⟨15, 10, -4, 10, PLATE_1x1⟩, ⟨15, 10, -4, -10, PLATE_1x1⟩,
       ⟨15, 10, -4, -30, PLATE_1x1⟩, ⟨15, -10, -4, -50, PLATE_1x1⟩, ⟨15, 10, -4, -50, PLATE_1x1⟩,
       ⟨15, 30, -4, -50, PLATE_1x1⟩] := by
  norm_num [build_centered_digit, render_text_5x7, lookupGlyphs, DIGITS_5x7,
    SceneContext.studs, SceneContext.baseplate_top_origin_y, demoCtx, STUD,
    BASEPLATE_THICKNESS, Except.map, renderConcat_single, List.enum, List.enumFrom,
    PlacedPart.mk.injEq, (by decide : ('.' : Char) ≠ '#')]

/-- C2 counterexample: rendering glyph "1" centred at stud (0,0) emits a
placement whose row coordinate is 3.5 studs (70 LDraw units), outside the
claimed exact range −3..3 studs: the code adds a half-stud correction to the
`center − (dimension−1)/2` origin. -/
theorem digit_one_exceeds_claimed_rows :
    ∃ recs, build_centered_digit demoCtx ['1'] 0 0 15 = Except.ok recs ∧
      ∃ r ∈ recs, r.z = demoCtx.studs (7/2) ∧ ¬(r.z ≤ demoCtx.studs 3) := by
  refine ⟨_, build_centered_digit_one_eval, ⟨15, 10, -4, 70, PLATE_1x1⟩, ?_, ?_, ?_⟩
  · decide
  · norm_num [SceneContext.studs, demoCtx, STUD]
  · norm_num [SceneContext.studs, demoCtx, STUD]

/-- C2 amended: with the half-stud correction actually applied
(`origin = center − (dimension−1)/2 + 1/2` per axis), the glyph "1" placed
centred at stud (0,0) yields placements whose column coordinates are exactly
−0.5, 0.5 or 1.5 studs (within the shifted bitmap extent −1.5..2.5) and whose
row coordinates lie exactly within −2.5..3.5 studs, both row extremes being
attained. -/
theorem digit_one_half_stud_extents :
    ∃ recs, build_centered_digit demoCtx ['1'] 0 0 15 = Except.ok recs ∧
      (∀ r ∈ recs,
        (r.x = demoCtx.studs (-(1/2)) ∨ r.x = demoCtx.studs (1/2) ∨ r.x = demoCtx.studs (3/2)) ∧
        demoCtx.studs (-(3/2)) ≤ r.x ∧ r.x ≤ demoCtx.studs (5/2) ∧
        demoCtx.studs (-(5/2)) ≤ r.z ∧ r.z ≤ demoCtx.studs (7/2)) ∧
      (∃ r ∈ recs, r.z = demoCtx.studs (-(5/2))) ∧
      (∃ r ∈ recs, r.z = demoCtx.studs (7/2)) := by
  refine ⟨_, build_centered_digit_one_eval, ?_, ?_, ?_⟩
  · norm_num [SceneContext.studs, demoCtx, STUD]
  · exact ⟨⟨15, -10, -4, -50, PLATE_1x1⟩, by decide, by norm_num [SceneContext.studs, demoCtx, STUD]⟩
  · exact ⟨⟨15, 10, -4, 70, PLATE_1x1⟩, by decide, by norm_num [SceneContext.studs, demoCtx, STUD]⟩
theorem rnd_intCast (m : ℤ) : rnd (m : ℚ) = m := by
  simp [rnd, Int.floor_intCast]

theorem abs_rnd_sub_le (q : ℚ) : |(rnd q : ℚ) - q| ≤ 1/2 := by
  have h0 : (⌊q⌋ : ℚ) ≤ q := Int.floor_le q
  have h1 : q < (⌊q⌋ : ℚ) + 1 := Int.lt_floor_add_one q
  simp only [rnd]
  split_ifs with hc1 hc2 hc3
  · rw [abs_le]; constructor <;> linarith
  · rw [abs_le]; push_cast; constructor <;> linarith
  · rw [abs_le]; constructor <;> linarith
  · rw [abs_le]; push_cast; constructor <;> linarith

theorem rnd_eq_of_abs_lt {q : ℚ} {m : ℤ} (h : |q - (m : ℚ)| < 1/2) : rnd q = m := by
  rw [abs_lt] at h
  by_cases hq : (m : ℚ) ≤ q
  · have hf : ⌊q⌋ = m := by
      rw [Int.floor_eq_iff]
      exact ⟨hq, by linarith [h.2]⟩
    simp only [rnd, hf]
    rw [if_pos h.2]
  · push_neg at hq
    have hf : ⌊q⌋ = m - 1 := by
      rw [Int.floor_eq_iff]
      constructor
      · push_cast; linarith [h.1]
      · push_cast; linarith
    have hc1 : ¬(q - ((m - 1 : ℤ) : ℚ) < 1/2) := by push_cast; linarith [h.1]
    have hc2 : 1/2 < q - ((m - 1 : ℤ) : ℚ) := by push_cast; linarith [h.1]
    simp only [rnd, hf]
    rw [if_neg hc1, if_pos hc2]
    omega

theorem rnd_even_of_abs_eq {q : ℚ} (h : |(rnd q : ℚ) - q| = 1/2) : rnd q % 2 = 0 := by
  have h0 : (⌊q⌋ : ℚ) ≤ q := Int.floor_le q
  have h1 : q < (⌊q⌋ : ℚ) + 1 := Int.lt_floor_add_one q
  simp only [rnd] at h ⊢
  split_ifs at h ⊢ with hc1 hc2 hc3
  · rw [abs_eq (by norm_num)] at h
    rcases h with h | h <;> linarith
  · rw [abs_eq (by norm_num)] at h
    push_cast at h
    rcases h with h | h <;> linarith
  · exact hc3
  · omega

theorem rnd_eq_of_abs_eq_even {q : ℚ} {m : ℤ} (he : m % 2 = 0) (h : |q - (m : ℚ)| = 1/2) :
    rnd q = m := by
  rw [abs_eq (by norm_num)] at h
  rcases h with h | h
  · have hf : ⌊q⌋ = m := by
      rw [Int.floor_eq_iff]
      exact ⟨by linarith, by linarith⟩
    have hc1 : ¬(q - (m : ℚ) < 1/2) := by linarith
    have hc2 : ¬(1/2 < q - (m : ℚ)) := by linarith
    simp only [rnd, hf]
    rw [if_neg hc1, if_neg hc2, if_pos he]
  · have hf : ⌊q⌋ = m - 1 := by
      rw [Int.floor_eq_iff]
      constructor
      · push_cast; linarith
      · push_cast; linarith
    have hc1 : ¬(q - ((m - 1 : ℤ) : ℚ) < 1/2) := by push_cast; linarith
    have hc2 : ¬(1/2 < q - ((m - 1 : ℤ) : ℚ)) := by push_cast; linarith
    have hm1 : ¬((m - 1) % 2 = 0) := by omega
    simp only [rnd, hf]
    rw [if_neg hc1, if_neg hc2, if_neg hm1]
    omega

theorem rnd_zero_of_abs_le_half {q : ℚ} (h : |q| ≤ 1/2) : rnd q = 0 := by
  rcases lt_or_eq_of_le h with hlt | heq
  · exact rnd_eq_of_abs_lt (by simpa using hlt)
  · exact rnd_eq_of_abs_eq_even (by norm_num) (by simpa using heq)

theorem list_sum_map_sub_const (xs : List ℚ) (c : ℚ) :
    (xs.map (fun v => v - c)).sum = xs.sum - (xs.length : ℚ) * c := by
  induction xs with
  | nil => simp
  | cons v t ih =>
    simp only [List.map_cons, List.sum_cons, List.length_cons, ih]
    push_cast
    ring

theorem sum_abs_le_half (l : List ℚ) (h : ∀ d ∈ l, |d| ≤ 1/2) :
    |l.sum| ≤ (l.length : ℚ)/2 := by
  induction l with
  | nil => simp
  | cons d t ih =>
    have hd := h d (List.mem_cons_self d t)
    have ht := ih (fun x hx => h x (List.mem_cons_of_mem d hx))
    simp only [List.sum_cons, List.length_cons]
    calc |d + t.sum| ≤ |d| + |t.sum| := abs_add _ _
    _ ≤ ((t.length : ℚ) + 1)/2 := by linarith
    _ = (((t.length : ℕ) + 1 : ℕ) : ℚ)/2 := by push_cast; ring

theorem all_eq_half_of_sum (l : List ℚ) (h : ∀ d ∈ l, |d| ≤ 1/2)
    (hs : l.sum = (l.length : ℚ)/2) : ∀ d ∈ l, d = 1/2 := by
  induction l with
  | nil => simp
  | cons d t ih =>
    have hd := abs_le.mp (h d (List.mem_cons_self d t))
    have hrest : ∀ x ∈ t, |x| ≤ 1/2 := fun x hx => h x (List.mem_cons_of_mem d hx)
    have hbd := abs_le.mp (sum_abs_le_half t hrest)
    simp only [List.sum_cons, List.length_cons] at hs
    push_cast at hs
    have hd2 : d = 1/2 := by linarith
    have hts : t.sum = (t.length : ℚ)/2 := by linarith
    intro x hx
    rcases List.mem_cons.mp hx with rfl | hx2
    · exact hd2
    · exact ih hrest hts x hx2

theorem all_eq_neg_half_of_sum (l : List ℚ) (h : ∀ d ∈ l, |d| ≤ 1/2)
    (hs : l.sum = -((l.length : ℚ)/2)) : ∀ d ∈ l, d = -(1/2) := by
  induction l with
  | nil => simp
  | cons d t ih =>
    have hd := abs_le.mp (h d (List.mem_cons_self d t))
    have hrest : ∀ x ∈ t, |x| ≤ 1/2 := fun x hx => h x (List.mem_cons_of_mem d hx)
    have hbd := abs_le.mp (sum_abs_le_half t hrest)
    simp only [List.sum_cons, List.length_cons] at hs
    push_cast at hs
    have hd2 : d = -(1/2) := by linarith
    have hts : t.sum = -((t.length : ℚ)/2) := by linarith
    intro x hx
    rcases List.mem_cons.mp hx with rfl | hx2
    · exact hd2
    · exact ih hrest hts x hx2

theorem list_sum_map_sub (xs : List ℚ) (f g : ℚ → ℚ) :
    (xs.map (fun v => f v - g v)).sum = (xs.map f).sum - (xs.map g).sum := by
  induction xs with
  | nil => simp
  | cons v t ih =>
    simp only [List.map_cons, List.sum_cons, ih]
    ring

theorem recentered_sum_eq_dsum (xs : List ℚ) (n : ℚ) (hlen : (xs.length : ℚ) = n)
    (hne : xs ≠ []) :
    (xs.map (fun v => ((rnd (v - xs.sum / n) : ℤ) : ℚ))).sum =
      (xs.map (fun v => ((rnd (v - xs.sum / n) : ℤ) : ℚ) - (v - xs.sum / n))).sum := by
  have hn0 : (0 : ℚ) < n := by
    rw [← hlen]
    exact_mod_cast List.length_pos.mpr hne
  rw [list_sum_map_sub xs (fun v => ((rnd (v - xs.sum / n) : ℤ) : ℚ)) (fun v => v - xs.sum / n),
    list_sum_map_sub_const, hlen]
  field_simp

theorem recentered_mean_abs_le (xs : List ℚ) (n : ℚ) (hlen : (xs.length : ℚ) = n)
    (hne : xs ≠ []) :
    |(xs.map (fun v => ((rnd (v - xs.sum / n) : ℤ) : ℚ))).sum / n| ≤ 1/2 := by
  have hn0 : (0 : ℚ) < n := by
    rw [← hlen]
    exact_mod_cast List.length_pos.mpr hne
  have hds : ∀ d ∈ xs.map (fun v => ((rnd (v - xs.sum / n) : ℤ) : ℚ) - (v - xs.sum / n)),
      |d| ≤ 1/2 := by
    intro d hd
    obtain ⟨v, hv, rfl⟩ := List.mem_map.mp hd
    exact abs_rnd_sub_le _
  have hbd := sum_abs_le_half _ hds
  rw [List.length_map, hlen] at hbd
  rw [recentered_sum_eq_dsum xs n hlen hne, abs_div, abs_of_pos hn0, div_le_iff hn0]
  linarith

theorem recenter_round_fixed (xs : List ℚ) (n : ℚ) (hlen : (xs.length : ℚ) = n)
    (hne : xs ≠ []) :
    ∀ y ∈ xs.map (fun v => ((rnd (v - xs.sum / n) : ℤ) : ℚ)),
      ((rnd (y - (xs.map (fun v => ((rnd (v - xs.sum / n) : ℤ) : ℚ))).sum / n) : ℤ) : ℚ) = y := by
  have hn0 : (0 : ℚ) < n := by
    rw [← hlen]
    exact_mod_cast List.length_pos.mpr hne
  intro y hy
  obtain ⟨v, hv, rfl⟩ := List.mem_map.mp hy
  have habs := recentered_mean_abs_le xs n hlen hne
  have harr : ((rnd (v - xs.sum / n) : ℤ) : ℚ) -
      (xs.map (fun v => ((rnd (v - xs.sum / n) : ℤ) : ℚ))).sum / n -
      ((rnd (v - xs.sum / n) : ℤ) : ℚ) =
      -((xs.map (fun v => ((rnd (v - xs.sum / n) : ℤ) : ℚ))).sum / n) := by
    ring
  rcases lt_or_eq_of_le habs with hlt | heq
  · exact congrArg _ (rnd_eq_of_abs_lt (by rw [harr, abs_neg]; exact hlt))
  · have hds : ∀ d ∈ xs.map (fun v => ((rnd (v - xs.sum / n) : ℤ) : ℚ) - (v - xs.sum / n)),
        |d| ≤ 1/2 := by
      intro d hd
      obtain ⟨w, hw, rfl⟩ := List.mem_map.mp hd
      exact abs_rnd_sub_le _
    have hdlen : ((xs.map (fun v => ((rnd (v - xs.sum / n) : ℤ) : ℚ) - (v - xs.sum / n))).length : ℚ) = n := by
      rw [List.length_map]
      exact hlen
    have hsum := recentered_sum_eq_dsum xs n hlen hne
    have hmem : ((rnd (v - xs.sum / n) : ℤ) : ℚ) - (v - xs.sum / n) ∈
        xs.map (fun v => ((rnd (v - xs.sum / n) : ℤ) : ℚ) - (v - xs.sum / n)) :=
      List.mem_map.mpr ⟨v, hv, rfl⟩
    rcases (abs_eq (by norm_num : (0:ℚ) ≤ 1/2)).mp heq with hm | hm
    · have hys_sum : (xs.map (fun v => ((rnd (v - xs.sum / n) : ℤ) : ℚ))).sum = 1/2 * n := by
        rw [div_eq_iff hn0.ne'] at hm
        exact hm
      have hds_sum : (xs.map (fun v => ((rnd (v - xs.sum / n) : ℤ) : ℚ) - (v - xs.sum / n))).sum =
          ((xs.map (fun v => ((rnd (v - xs.sum / n) : ℤ) : ℚ) - (v - xs.sum / n))).length : ℚ) / 2 := by
        rw [hdlen, ← hsum, hys_sum]
        ring
      have hd_half := all_eq_half_of_sum _ hds hds_sum _ hmem
      have heven : rnd (v - xs.sum / n) % 2 = 0 :=
        rnd_even_of_abs_eq (by rw [hd_half]; rw [abs_of_nonneg] <;> norm_num)
      refine congrArg _ (rnd_eq_of_abs_eq_even heven ?_)
      rw [harr, abs_neg, hm]
      rw [abs_of_nonneg] <;> norm_num
    · have hds_sum : (xs.map (fun v => ((rnd (v - xs.sum / n) : ℤ) : ℚ) - (v - xs.sum / n))).sum =
          -(((xs.map (fun v => ((rnd (v - xs.sum / n) : ℤ) : ℚ) - (v - xs.sum / n))).length : ℚ) / 2) := by
        rw [div_eq_iff hn0.ne'] at hm
        rw [hdlen, ← hsum, hm]
        ring
      have hd_half := all_eq_neg_half_of_sum _ hds hds_sum _ hmem
      have heven : rnd (v - xs.sum / n) % 2 = 0 :=
        rnd_even_of_abs_eq (by rw [hd_half]; rw [abs_neg, abs_of_nonneg] <;> norm_num)
      refine congrArg _ (rnd_eq_of_abs_eq_even heven ?_)
      rw [harr, abs_neg, hm]
      rw [abs_neg, abs_of_nonneg] <;> norm_num

theorem clean_idem (v : ℚ) : clean default_epsilon (clean default_epsilon v) = clean default_epsilon v := by
  by_cases h1 : |v| < default_epsilon
  · have hv : clean default_epsilon v = 0 := by rw [clean, if_pos h1]
    rw [hv]
    norm_num [clean, default_epsilon]
  · by_cases h2 : |v - 1| < default_epsilon
    · have hv : clean default_epsilon v = 1 := by rw [clean, if_neg h1, if_pos h2]
      rw [hv]
      norm_num [clean, default_epsilon]
    · by_cases h3 : |v + 1| < default_epsilon
      · have hv : clean default_epsilon v = -1 := by rw [clean, if_neg h1, if_neg h2, if_pos h3]
        rw [hv]
        norm_num [clean, default_epsilon]
      · have hv : clean default_epsilon v = v := by rw [clean, if_neg h1, if_neg h2, if_neg h3]
        rw [hv, clean, if_neg h1, if_neg h2, if_neg h3]

theorem normalize_eq_map (parts : List LDrawType1) (hne : parts ≠ []) :
    normalize_template_inplace parts = parts.map (normalizeStep
      ((parts.map (fun p => p.x)).sum / (parts.length : ℚ))
      ((parts.map (fun p => p.z)).sum / (parts.length : ℚ))) := by
  rw [normalize_template_inplace, if_neg hne]

theorem normalize_map_x (parts : List LDrawType1) (hne : parts ≠ []) :
    (normalize_template_inplace parts).map (fun p => p.x) =
      (parts.map (fun p => p.x)).map (fun v =>
        ((rnd (v - (parts.map (fun p => p.x)).sum / (parts.length : ℚ)) : ℤ) : ℚ)) := by
  rw [normalize_eq_map parts hne]
  simp only [List.map_map]
  rfl

theorem normalize_map_z (parts : List LDrawType1) (hne : parts ≠ []) :
    (normalize_template_inplace parts).map (fun p => p.z) =
      (parts.map (fun p => p.z)).map (fun v =>
        ((rnd (v - (parts.map (fun p => p.z)).sum / (parts.length : ℚ)) : ℤ) : ℚ)) := by
  rw [normalize_eq_map parts hne]
  simp only [List.map_map]
  rfl



/-- C1: `normalize_template_inplace` is idempotent over exact rationals:
applying it to an already-normalized template returns the template unchanged
(recentring moves nothing because the rounded coordinates' centroid
re-rounds to zero, and `clean` is a projection). -/
theorem normalize_template_inplace_idempotent (parts : List LDrawType1) :
    normalize_template_inplace (normalize_template_inplace parts) =
      normalize_template_inplace parts := by
  by_cases hne : parts = []
  · rw [hne]
    rfl
  · have hxsne : parts.map (fun p => p.x) ≠ [] :=
      fun hcontra => hne (List.map_eq_nil_iff.mp hcontra)
    have hzsne : parts.map (fun p => p.z) ≠ [] :=
      fun hcontra => hne (List.map_eq_nil_iff.mp hcontra)
    have hPne : normalize_template_inplace parts ≠ [] := by
      rw [normalize_eq_map parts hne]
      exact fun hcontra => hne (List.map_eq_nil_iff.mp hcontra)
    have hxkey := recenter_round_fixed (parts.map (fun p => p.x)) (parts.length : ℚ)
      (by rw [List.length_map]) hxsne
    have hzkey := recenter_round_fixed (parts.map (fun p => p.z)) (parts.length : ℚ)
      (by rw [List.length_map]) hzsne
    rw [normalize_eq_map (normalize_template_inplace parts) hPne]
    rw [normalize_map_x parts hne, normalize_map_z parts hne]
    have hlenP : ((normalize_template_inplace parts).length : ℚ) = (parts.length : ℚ) := by
      rw [normalize_eq_map parts hne, List.length_map]
    rw [hlenP]
    conv_rhs => rw [← List.map_id (normalize_template_inplace parts)]
    apply List.map_congr_left
    intro q hq
    have hqx : q.x ∈ (parts.map (fun p => p.x)).map (fun v =>
        ((rnd (v - (parts.map (fun p => p.x)).sum / (parts.length : ℚ)) : ℤ) : ℚ)) := by
      rw [← normalize_map_x parts hne]
      exact List.mem_map_of_mem _ hq
    have hqz : q.z ∈ (parts.map (fun p => p.z)).map (fun v =>
        ((rnd (v - (parts.map (fun p => p.z)).sum / (parts.length : ℚ)) : ℤ) : ℚ)) := by
      rw [← normalize_map_z parts hne]
      exact List.mem_map_of_mem _ hq
    have hx2 := hxkey q.x hqx
    have hz2 := hzkey q.z hqz
    rw [normalize_eq_map parts hne] at hq
    obtain ⟨p, hp, hpq⟩ := List.mem_map.mp hq
    have hy2 : ((rnd q.y : ℤ) : ℚ) = q.y := by
      rw [← hpq]
      exact congrArg _ (rnd_intCast (rnd p.y))
    have ha2 : clean default_epsilon q.a = q.a := by rw [← hpq]; exact clean_idem p.a
    have hb2 : clean default_epsilon q.b = q.b := by rw [← hpq]; exact clean_idem p.b
    have hc2 : clean default_epsilon q.c = q.c := by rw [← hpq]; exact clean_idem p.c
    have hd2 : clean default_epsilon q.d = q.d := by rw [← hpq]; exact clean_idem p.d
    have he2 : clean default_epsilon q.e = q.e := by rw [← hpq]; exact clean_idem p.e
    have hf2 : clean default_epsilon q.f = q.f := by rw [← hpq]; exact clean_idem p.f
    have hg2 : clean default_epsilon q.g = q.g := by rw [← hpq]; exact clean_idem p.g
    have hh2 : clean default_epsilon q.h = q.h := by rw [← hpq]; exact clean_idem p.h
    have hi2 : clean default_epsilon q.i = q.i := by rw [← hpq]; exact clean_idem p.i
    rw [id_eq, normalizeStep, hx2, hy2, hz2, ha2, hb2, hc2, hd2, he2, hf2, hg2, hh2, hi2]

/-- C7: after `normalize_template_inplace`, the mean of the x coordinates and
the mean of the z coordinates each have absolute value at most 1/2 stud in
exact rational arithmetic, and both round to 0. -/
theorem normalize_recentered_mean_bound (parts : List LDrawType1) (hne : parts ≠ []) :
    |((normalize_template_inplace parts).map (fun p => p.x)).sum /
        ((normalize_template_inplace parts).length : ℚ)| ≤ 1/2 ∧
    |((normalize_template_inplace parts).map (fun p => p.z)).sum /
        ((normalize_template_inplace parts).length : ℚ)| ≤ 1/2 ∧
    rnd (((normalize_template_inplace parts).map (fun p => p.x)).sum /
        ((normalize_template_inplace parts).length : ℚ)) = 0 ∧
    rnd (((normalize_template_inplace parts).map (fun p => p.z)).sum /
        ((normalize_template_inplace parts).length : ℚ)) = 0 := by
  have hxsne : parts.map (fun p => p.x) ≠ [] :=
    fun hcontra => hne (List.map_eq_nil_iff.mp hcontra)
  have hzsne : parts.map (fun p => p.z) ≠ [] :=
    fun hcontra => hne (List.map_eq_nil_iff.mp hcontra)
  have hlenP : ((normalize_template_inplace parts).length : ℚ) = (parts.length : ℚ) := by
    rw [normalize_eq_map parts hne, List.length_map]
  rw [normalize_map_x parts hne, normalize_map_z parts hne, hlenP]
  have hx := recentered_mean_abs_le (parts.map (fun p => p.x)) (parts.length : ℚ)
    (by rw [List.length_map]) hxsne
  have hz := recentered_mean_abs_le (parts.map (fun p => p.z)) (parts.length : ℚ)
    (by rw [List.length_map]) hzsne
  exact ⟨hx, hz, rnd_zero_of_abs_le_half hx, rnd_zero_of_abs_le_half hz⟩

theorem normalize_recentered_mean_bound_witness :
    |((normalize_template_inplace [demoPart]).map (fun p => p.x)).sum /
        ((normalize_template_inplace [demoPart]).length : ℚ)| ≤ 1/2 :=
  (normalize_recentered_mean_bound [demoPart] (List.cons_ne_nil _ _)).1

theorem normalize_template_inplace_idempotent_witness :
    normalize_template_inplace (normalize_template_inplace [demoPart]) =
      normalize_template_inplace [demoPart] :=
  normalize_template_inplace_idempotent [demoPart]
theorem runH_cells (z0 x0 : ℚ) (segs : List ℕ) :
    ((runH z0 x0 segs).map segCells).flatten =
      (List.range segs.sum).map (fun (j : ℕ) => (x0 + (j : ℚ), z0)) := by
  induction segs generalizing x0 with
  | nil => simp [runH]
  | cons L rest ih =>
    simp only [runH, List.map_cons, List.flatten_cons, List.sum_cons]
    rw [ih, List.range_add, List.map_append, List.map_map]
    congr 1
    · simp only [segCells, if_pos]
      apply List.map_congr_left
      intro j _
      simp only [Prod.mk.injEq]
      exact ⟨by ring, trivial⟩
    · apply List.map_congr_left
      intro j _
      simp only [Function.comp_apply, Prod.mk.injEq]
      exact ⟨by push_cast; ring, trivial⟩

theorem runV_cells (x0 z0 : ℚ) (segs : List ℕ) :
    ((runV x0 z0 segs).map segCells).flatten =
      (List.range segs.sum).map (fun (j : ℕ) => (x0, z0 + (j : ℚ))) := by
  induction segs generalizing z0 with
  | nil => simp [runV]
  | cons L rest ih =>
    simp only [runV, List.map_cons, List.flatten_cons, List.sum_cons]
    rw [ih, List.range_add, List.map_append, List.map_map]
    congr 1
    · simp only [segCells, if_neg (by decide : ¬(false = true))]
      apply List.map_congr_left
      intro j _
      simp only [Prod.mk.injEq]
      exact ⟨trivial, by ring⟩
    · apply List.map_congr_left
      intro j _
      simp only [Function.comp_apply, Prod.mk.injEq]
      exact ⟨trivial, by push_cast; ring⟩

theorem frameCells_eq (cx cz : ℚ) :
    frameCells cx cz =
      ((List.range 32).map (fun (j : ℕ) => (cx - 31/2 + (j : ℚ), cz - 29/2)))
      ++ ((List.range 32).map (fun (j : ℕ) => (cx - 31/2 + (j : ℚ), cz + 29/2)))
      ++ ((List.range 28).map (fun (j : ℕ) => (cx - 31/2, cz - 27/2 + (j : ℚ))))
      ++ ((List.range 28).map (fun (j : ℕ) => (cx + 31/2, cz - 27/2 + (j : ℚ)))) := by
  simp only [frameCells, build_group_frame, List.map_append, List.flatten_append]
  rw [runH_cells, runH_cells, runV_cells, runV_cells]
  simp only [show horizontal_segments.sum = 32 from rfl, show vertical_segments.sum = 28 from rfl]
  norm_num [frame_width, frame_height]
  ring_nf

theorem pairwise_ne_row (x0 z0 : ℚ) (n : ℕ) :
    ((List.range n).map (fun (j : ℕ) => (x0 + (j : ℚ), z0))).Pairwise (fun a b => a ≠ b) := by
  rw [List.pairwise_map]
  refine (List.pairwise_lt_range n).imp ?_
  intro a b hab hcontra
  rw [Prod.mk.injEq] at hcontra
  have h1 : (a : ℚ) = (b : ℚ) := by linarith [hcontra.1]
  exact absurd (Nat.cast_inj.mp h1) (Nat.ne_of_lt hab)

theorem pairwise_ne_col (x0 z0 : ℚ) (n : ℕ) :
    ((List.range n).map (fun (j : ℕ) => (x0, z0 + (j : ℚ)))).Pairwise (fun a b => a ≠ b) := by
  rw [List.pairwise_map]
  refine (List.pairwise_lt_range n).imp ?_
  intro a b hab hcontra
  rw [Prod.mk.injEq] at hcontra
  have h1 : (a : ℚ) = (b : ℚ) := by linarith [hcontra.2]
  exact absurd (Nat.cast_inj.mp h1) (Nat.ne_of_lt hab)

theorem frameCells_pairwise_ne (cx cz : ℚ) :
    (frameCells cx cz).Pairwise (fun a b => a ≠ b) := by
  rw [frameCells_eq]
  rw [List.pairwise_append, List.pairwise_append, List.pairwise_append]
  refine ⟨⟨⟨pairwise_ne_row _ _ _, pairwise_ne_row _ _ _, ?_⟩, pairwise_ne_col _ _ _, ?_⟩,
    pairwise_ne_col _ _ _, ?_⟩
  · -- bottom row vs top row: different z
    intro p hp q hq
    obtain ⟨i, hi, rfl⟩ := List.mem_map.mp hp
    obtain ⟨j, hj, rfl⟩ := List.mem_map.mp hq
    intro hcontra
    rw [Prod.mk.injEq] at hcontra
    linarith [hcontra.2]
  · -- the two horizontal rows vs the left column: z ranges disjoint
    intro p hp q hq
    obtain ⟨j, hj, rfl⟩ := List.mem_map.mp hq
    have hj28 : (j : ℚ) < 28 := by exact_mod_cast List.mem_range.mp hj
    have hj0 : (0 : ℚ) ≤ (j : ℚ) := by positivity
    rcases List.mem_append.mp hp with hp1 | hp2
    · obtain ⟨i, hi, rfl⟩ := List.mem_map.mp hp1
      intro hcontra
      rw [Prod.mk.injEq] at hcontra
      linarith [hcontra.2]
    · obtain ⟨i, hi, rfl⟩ := List.mem_map.mp hp2
      intro hcontra
      rw [Prod.mk.injEq] at hcontra
      linarith [hcontra.2]
  · -- everything else vs the right column
    intro p hp q hq
    obtain ⟨j, hj, rfl⟩ := List.mem_map.mp hq
    have hj28 : (j : ℚ) < 28 := by exact_mod_cast List.mem_range.mp hj
    have hj0 : (0 : ℚ) ≤ (j : ℚ) := by positivity
    rcases List.mem_append.mp hp with hp1 | hp3
    · rcases List.mem_append.mp hp1 with hp1a | hp1b
      · obtain ⟨i, hi, rfl⟩ := List.mem_map.mp hp1a
        have hi32 : (i : ℚ) < 32 := by exact_mod_cast List.mem_range.mp hi
        have hi0 : (0 : ℚ) ≤ (i : ℚ) := by positivity
        intro hcontra
        rw [Prod.mk.injEq] at hcontra
        linarith [hcontra.2]
      · obtain ⟨i, hi, rfl⟩ := List.mem_map.mp hp1b
        have hi32 : (i : ℚ) < 32 := by exact_mod_cast List.mem_range.mp hi
        have hi0 : (0 : ℚ) ≤ (i : ℚ) := by positivity
        intro hcontra
        rw [Prod.mk.injEq] at hcontra
        linarith [hcontra.2]
    · obtain ⟨i, hi, rfl⟩ := List.mem_map.mp hp3
      intro hcontra
      rw [Prod.mk.injEq] at hcontra
      linarith [hcontra.1]

/-- C4: `build_group_frame` tiles the frame exactly: the horizontal segment
lengths [12, 12, 8] sum to the full 32-stud width, the vertical lengths
[12, 12, 4] sum to 28 = 30 − 2, and the covered cells are precisely the two
full 32-cell top/bottom rows (corners included) and the two 28-cell left/right
columns inset by one stud, with all four corners covered and no cell covered
twice. -/
theorem build_group_frame_exact_tiling (cx cz : ℚ) :
    horizontal_segments.sum = frame_width ∧
    vertical_segments.sum = frame_height - 2 ∧
    frameCells cx cz =
      ((List.range 32).map (fun (j : ℕ) => (cx - 31/2 + (j : ℚ), cz - 29/2)))
      ++ ((List.range 32).map (fun (j : ℕ) => (cx - 31/2 + (j : ℚ), cz + 29/2)))
      ++ ((List.range 28).map (fun (j : ℕ) => (cx - 31/2, cz - 27/2 + (j : ℚ))))
      ++ ((List.range 28).map (fun (j : ℕ) => (cx + 31/2, cz - 27/2 + (j : ℚ)))) ∧
    (cx - 31/2, cz - 29/2) ∈ frameCells cx cz ∧
    (cx + 31/2, cz - 29/2) ∈ frameCells cx cz ∧
    (cx - 31/2, cz + 29/2) ∈ frameCells cx cz ∧
    (cx + 31/2, cz + 29/2) ∈ frameCells cx cz ∧
    (frameCells cx cz).Pairwise (fun a b => a ≠ b) := by
  refine ⟨rfl, rfl, frameCells_eq cx cz, ?_, ?_, ?_, ?_, frameCells_pairwise_ne cx cz⟩
  · rw [frameCells_eq]
    refine List.mem_append.mpr (Or.inl (List.mem_append.mpr (Or.inl (List.mem_append.mpr (Or.inl ?_)))))
    refine List.mem_map.mpr ⟨0, List.mem_range.mpr (by norm_num), ?_⟩
    norm_num
  · rw [frameCells_eq]
    refine List.mem_append.mpr (Or.inl (List.mem_append.mpr (Or.inl (List.mem_append.mpr (Or.inl ?_)))))
    refine List.mem_map.mpr ⟨31, List.mem_range.mpr (by norm_num), ?_⟩
    norm_num
    ring
  · rw [frameCells_eq]
    refine List.mem_append.mpr (Or.inl (List.mem_append.mpr (Or.inl (List.mem_append.mpr (Or.inr ?_)))))
    refine List.mem_map.mpr ⟨0, List.mem_range.mpr (by norm_num), ?_⟩
    norm_num
  · rw [frameCells_eq]
    refine List.mem_append.mpr (Or.inl (List.mem_append.mpr (Or.inl (List.mem_append.mpr (Or.inr ?_)))))
    refine List.mem_map.mpr ⟨31, List.mem_range.mpr (by norm_num), ?_⟩
    norm_num
    ring

theorem build_group_frame_exact_tiling_witness :
    (frameCells 0 0).Pairwise (fun a b => a ≠ b) :=
  (build_group_frame_exact_tiling 0 0).2.2.2.2.2.2.2

theorem splitAux_word (w : Str) (hw : ∀ c ∈ w, pyIsSpace c = false) :
    ∀ (rest acc : Str), splitAux (w ++ rest) acc = splitAux rest (w.reverse ++ acc) := by
  induction w with
  | nil => intro rest acc; rfl
  | cons c cs ih =>
    intro rest acc
    have hc : pyIsSpace c = false := hw c (List.mem_cons_self c cs)
    have hcs : ∀ x ∈ cs, pyIsSpace x = false := fun x hx => hw x (List.mem_cons_of_mem c hx)
    show splitAux (c :: (cs ++ rest)) acc = splitAux rest ((c :: cs).reverse ++ acc)
    simp only [splitAux, hc, Bool.false_eq_true, if_false]
    rw [ih hcs rest (c :: acc)]
    simp only [List.reverse_cons, List.append_assoc, List.cons_append, List.nil_append]

theorem splitAux_flush (rest : Str) (acc : Str) (hacc : acc ≠ []) :
    splitAux (' ' :: rest) acc = acc.reverse :: splitAux rest [] := by
  simp only [splitAux, if_neg hacc]
  rfl

theorem pySplit_joinSp (ts : List Str) (hne : ts ≠ [])
    (h : ∀ t ∈ ts, t ≠ [] ∧ ∀ c ∈ t, pyIsSpace c = false) :
    pySplit (joinSp ts) = ts := by
  induction ts with
  | nil => exact absurd rfl hne
  | cons t ts ih =>
    obtain ⟨hte, htc⟩ := h t (List.mem_cons_self t ts)
    cases ts with
    | nil =>
      show splitAux (joinSp [t]) [] = [t]
      have : joinSp [t] = t ++ [] := by simp [joinSp]
      rw [this, splitAux_word t htc [] []]
      simp only [splitAux, List.append_nil]
      rw [if_neg (fun hcontra => hte (by simpa using congrArg List.reverse hcontra))]
      simp
    | cons t2 ts2 =>
      have hjoin : joinSp (t :: t2 :: ts2) = t ++ ' ' :: joinSp (t2 :: ts2) := rfl
      show splitAux (joinSp (t :: t2 :: ts2)) [] = t :: t2 :: ts2
      rw [hjoin, splitAux_word t htc _ [], List.append_nil]
      rw [splitAux_flush _ _ (fun hcontra => hte (by simpa using congrArg List.reverse hcontra))]
      rw [List.reverse_reverse]
      have := ih (List.cons_ne_nil t2 ts2) (fun x hx => h x (List.mem_cons_of_mem t hx))
      rw [show splitAux (joinSp (t2 :: ts2)) [] = pySplit (joinSp (t2 :: ts2)) from rfl, this]

theorem digitChar_isDigit_all : ∀ d : ℕ, d < 10 → (Nat.digitChar d).isDigit = true := by
  decide

theorem digitChar_not_space_all : ∀ d : ℕ, d < 10 → pyIsSpace (Nat.digitChar d) = false := by
  decide

theorem digitChar_toNat_all : ∀ d : ℕ, d < 10 → (Nat.digitChar d).toNat - 48 = d := by
  decide

theorem isDigit_not_space {c : Char} (hc : c.isDigit = true) : pyIsSpace c = false := by
  by_contra hcontra
  rw [Bool.not_eq_false, pyIsSpace] at hcontra
  simp only [Bool.or_eq_true, decide_eq_true_eq] at hcontra
  rcases hcontra with ((((h | h) | h) | h) | h) | h <;> subst h <;> revert hc <;> decide

theorem natRepr_ne_nil (m : ℕ) : natRepr m ≠ [] := by
  unfold natRepr
  split_ifs with h
  · exact List.cons_ne_nil _ _
  · intro hcontra
    rw [List.map_eq_nil_iff, List.reverse_eq_nil_iff] at hcontra
    exact h (Nat.digits_eq_nil_iff_eq_zero.mp hcontra)

theorem natRepr_all_digits (m : ℕ) : ∀ c ∈ natRepr m, c.isDigit = true := by
  intro c hc
  unfold natRepr at hc
  split_ifs at hc with h
  · rcases List.mem_singleton.mp hc with rfl
    decide
  · obtain ⟨d, hd, rfl⟩ := List.mem_map.mp hc
    exact digitChar_isDigit_all d (Nat.digits_lt_base (by norm_num) (List.mem_reverse.mp hd))

theorem foldl_digits_eq_ofDigits (ds : List ℕ) (acc : ℕ) :
    ds.foldl (fun a d => a * 10 + d) acc = acc * 10 ^ ds.length + Nat.ofDigits 10 ds.reverse := by
  induction ds generalizing acc with
  | nil => simp [Nat.ofDigits]
  | cons d ds ih =>
    simp only [List.foldl_cons, List.length_cons, List.reverse_cons]
    rw [ih, Nat.ofDigits_append, Nat.ofDigits_singleton, List.length_reverse]
    ring

theorem digitsVal_map_digitChar (ds : List ℕ) (hds : ∀ d ∈ ds, d < 10) (acc : ℕ) :
    (ds.map Nat.digitChar).foldl (fun a c => a * 10 + (c.toNat - 48)) acc =
      ds.foldl (fun a d => a * 10 + d) acc := by
  induction ds generalizing acc with
  | nil => rfl
  | cons d ds ih =>
    simp only [List.map_cons, List.foldl_cons]
    rw [digitChar_toNat_all d (hds d (List.mem_cons_self d ds))]
    exact ih (fun x hx => hds x (List.mem_cons_of_mem d hx)) _

theorem digitsVal_natRepr (m : ℕ) : digitsVal (natRepr m) = m := by
  unfold natRepr digitsVal
  split_ifs with h
  · subst h
    rfl
  · rw [digitsVal_map_digitChar _
      (fun d hd => Nat.digits_lt_base (by norm_num) (List.mem_reverse.mp hd))]
    rw [foldl_digits_eq_ofDigits, List.reverse_reverse, Nat.ofDigits_digits]
    simp

theorem natVal_natRepr (m : ℕ) : natVal (natRepr m) = some m := by
  unfold natVal
  rw [if_pos ⟨natRepr_ne_nil m, List.all_eq_true.mpr (natRepr_all_digits m)⟩]
  rw [digitsVal_natRepr]

theorem isDigit_ne_signs {c : Char} (hc : c.isDigit = true) : c ≠ '-' ∧ c ≠ '+' ∧ c ≠ '.' := by
  refine ⟨?_, ?_, ?_⟩ <;> rintro rfl <;> revert hc <;> decide

theorem pyInt_natRepr (m : ℕ) : pyInt (natRepr m) = some (m : ℤ) := by
  cases hnr : natRepr m with
  | nil => exact absurd hnr (natRepr_ne_nil m)
  | cons c cs =>
    have hcd : c.isDigit = true :=
      natRepr_all_digits m c (by rw [hnr]; exact List.mem_cons_self c cs)
    obtain ⟨h1, h2, _⟩ := isDigit_ne_signs hcd
    simp only [pyInt, if_neg h1, if_neg h2]
    rw [← hnr, natVal_natRepr]
    rfl

theorem pyInt_intRepr (n : ℤ) : pyInt (intRepr n) = some n := by
  unfold intRepr
  split_ifs with h
  · show pyInt ('-' :: natRepr n.natAbs) = some n
    simp only [pyInt, if_pos rfl]
    rw [natVal_natRepr]
    show some (-(n.natAbs : ℤ)) = some n
    congr 1
    omega
  · rw [pyInt_natRepr]
    congr 1
    omega

theorem takeWhile_all {p : Char → Bool} (l : Str) (h : ∀ c ∈ l, p c = true) :
    l.takeWhile p = l := by
  induction l with
  | nil => rfl
  | cons c cs ih =>
    rw [List.takeWhile_cons, if_pos (h c (List.mem_cons_self c cs))]
    rw [ih (fun x hx => h x (List.mem_cons_of_mem c hx))]

theorem dropWhile_all {p : Char → Bool} (l : Str) (h : ∀ c ∈ l, p c = true) :
    l.dropWhile p = [] := by
  induction l with
  | nil => rfl
  | cons c cs ih =>
    rw [List.dropWhile_cons, if_pos (h c (List.mem_cons_self c cs))]
    exact ih (fun x hx => h x (List.mem_cons_of_mem c hx))

theorem pyFloat_digits (c : Char) (cs : Str) (hall : ∀ x ∈ c :: cs, x.isDigit = true) :
    pyFloat (c :: cs) = some ((digitsVal (c :: cs) : ℚ)) := by
  obtain ⟨h1, h2, _⟩ := isDigit_ne_signs (hall c (List.mem_cons_self c cs))
  simp [pyFloat, h1, h2, takeWhile_all _ hall, dropWhile_all _ hall, List.cons_ne_nil]
  rfl

theorem pyFloat_neg_digits (w : Str) (hw : w ≠ []) (hall : ∀ x ∈ w, x.isDigit = true) :
    pyFloat ('-' :: w) = some (-(digitsVal w : ℚ)) := by
  simp [pyFloat, takeWhile_all _ hall, dropWhile_all _ hall, hw]
  rfl

theorem takeWhile_digits_append (w rest : Str) (hwd : ∀ x ∈ w, Char.isDigit x = true) :
    (w ++ '.' :: rest).takeWhile Char.isDigit = w := by
  rw [List.takeWhile_append, if_pos (by rw [takeWhile_all _ hwd])]
  rw [List.takeWhile_cons, if_neg (by decide)]
  simp

theorem dropWhile_digits_append (w rest : Str) (hwd : ∀ x ∈ w, Char.isDigit x = true) :
    (w ++ '.' :: rest).dropWhile Char.isDigit = '.' :: rest := by
  rw [List.dropWhile_append, if_pos (by rw [dropWhile_all _ hwd]; rfl)]
  rw [List.dropWhile_cons, if_neg (by decide)]

theorem pyFloat_int_frac (c : Char) (cs f : Str)
    (hwd : ∀ x ∈ c :: cs, x.isDigit = true) (hfd : ∀ x ∈ f, x.isDigit = true) :
    pyFloat ((c :: cs) ++ '.' :: f) =
      some (((digitsVal (c :: cs) : ℚ) * (10 : ℚ) ^ f.length + (digitsVal f : ℚ)) /
        (10 : ℚ) ^ f.length) := by
  obtain ⟨h1, h2, _⟩ := isDigit_ne_signs (hwd c (List.mem_cons_self c cs))
  show pyFloat (c :: (cs ++ '.' :: f)) = _
  have hta : (c :: (cs ++ '.' :: f)).takeWhile Char.isDigit = c :: cs := by
    rw [← List.cons_append]
    exact takeWhile_digits_append (c :: cs) f hwd
  have hda : (c :: (cs ++ '.' :: f)).dropWhile Char.isDigit = '.' :: f := by
    rw [← List.cons_append]
    exact dropWhile_digits_append (c :: cs) f hwd
  simp [pyFloat, h1, h2, hta, hda, takeWhile_all _ hfd, dropWhile_all _ hfd,
    List.cons_ne_nil]

theorem pyFloat_neg_int_frac (c : Char) (cs f : Str)
    (hwd : ∀ x ∈ c :: cs, x.isDigit = true) (hfd : ∀ x ∈ f, x.isDigit = true) :
    pyFloat ('-' :: ((c :: cs) ++ '.' :: f)) =
      some (-(((digitsVal (c :: cs) : ℚ) * (10 : ℚ) ^ f.length + (digitsVal f : ℚ)) /
        (10 : ℚ) ^ f.length)) := by
  show pyFloat ('-' :: (c :: (cs ++ '.' :: f))) = _
  have hta : (c :: (cs ++ '.' :: f)).takeWhile Char.isDigit = c :: cs := by
    rw [← List.cons_append]
    exact takeWhile_digits_append (c :: cs) f hwd
  have hda : (c :: (cs ++ '.' :: f)).dropWhile Char.isDigit = '.' :: f := by
    rw [← List.cons_append]
    exact dropWhile_digits_append (c :: cs) f hwd
  simp [pyFloat, hta, hda, takeWhile_all _ hfd, dropWhile_all _ hfd,
    List.cons_ne_nil]

theorem foldl_zero_chars (z : ℕ) :
    List.foldl (fun a c => a * 10 + (c.toNat - 48)) 0 (List.replicate z '0') = 0 := by
  induction z with
  | zero => rfl
  | succ n ih => simpa [List.replicate_succ] using ih

theorem digitsVal_padZeros (k m : ℕ) : digitsVal (padZeros k (natRepr m)) = m := by
  unfold padZeros digitsVal
  rw [List.foldl_append, foldl_zero_chars]
  exact digitsVal_natRepr m

theorem padZeros_all_digits (k m : ℕ) : ∀ c ∈ padZeros k (natRepr m), c.isDigit = true := by
  intro c hc
  rcases List.mem_append.mp hc with h | h
  · rw [List.eq_of_mem_replicate h]
    decide
  · exact natRepr_all_digits m c h

theorem padZeros_length (k : ℕ) (s : Str) (h : s.length ≤ k) : (padZeros k s).length = k := by
  unfold padZeros
  rw [List.length_append, List.length_replicate]
  omega

theorem natRepr_length_le {B k : ℕ} (hB : B < 10 ^ k) (hk : 1 ≤ k) :
    (natRepr B).length ≤ k := by
  by_cases hB0 : B = 0
  · subst hB0
    simpa [natRepr] using hk
  · have hlen : (natRepr B).length = (Nat.digits 10 B).length := by
      simp [natRepr, hB0]
    have h1 : 10 ^ (Nat.digits 10 B).length ≤ 10 * B :=
      Nat.base_pow_length_digits_le 10 B (by norm_num) hB0
    have h2 : 10 * B < 10 ^ (k + 1) := by
      rw [pow_succ, mul_comm]
      omega
    have h3 : (Nat.digits 10 B).length < k + 1 := by
      have := lt_of_le_of_lt h1 h2
      exact (Nat.pow_lt_pow_iff_right (by norm_num : 1 < 10)).mp this
    omega

theorem finiteDec_den_dvd {q : ℚ} (hq : FiniteDec q) : q.den ∣ 10 ^ q.den := by
  obtain ⟨n, K, hq⟩ := hq
  have hdvd10K : q.den ∣ 10 ^ K := by
    have h1 : q = Rat.divInt n ((10 : ℤ) ^ K) := by
      rw [Rat.divInt_eq_div, hq]
      push_cast
      ring
    have h2 := Rat.den_dvd n ((10 : ℤ) ^ K)
    rw [← h1] at h2
    exact_mod_cast h2
  have h10 : (10 : ℕ) = 2 * 5 := by norm_num
  rw [h10, mul_pow] at hdvd10K
  obtain ⟨d1, d2, hd1, hd2, hden⟩ := exists_dvd_and_dvd_of_dvd_mul hdvd10K
  obtain ⟨a, _, rfl⟩ := (Nat.dvd_prime_pow Nat.prime_two).mp hd1
  obtain ⟨b, _, rfl⟩ := (Nat.dvd_prime_pow (by norm_num : Nat.Prime 5)).mp hd2
  have hdpos : 0 < q.den := q.pos
  have ha : a ≤ q.den := by
    have h2a : 2 ^ a ≤ q.den := Nat.le_of_dvd hdpos ⟨5 ^ b, hden⟩
    have := Nat.lt_two_pow a
    omega
  have hb : b ≤ q.den := by
    have h5b : 5 ^ b ≤ q.den := Nat.le_of_dvd hdpos ⟨2 ^ a, by rw [hden]; ring⟩
    have hb2 : b < 2 ^ b := Nat.lt_two_pow b
    have hb5 : 2 ^ b ≤ 5 ^ b := Nat.pow_le_pow_left (by norm_num) b
    omega
  rw [h10, mul_pow]
  nth_rewrite 1 [hden]
  exact mul_dvd_mul (pow_dvd_pow 2 ha) (pow_dvd_pow 5 hb)

theorem pyFloat_natRepr_natAbs (n : ℤ) :
    pyFloat (natRepr n.natAbs) = some ((n.natAbs : ℚ)) := by
  cases hnr : natRepr n.natAbs with
  | nil => exact absurd hnr (natRepr_ne_nil _)
  | cons c cs =>
    have hall : ∀ x ∈ c :: cs, x.isDigit = true := by
      rw [← hnr]
      exact natRepr_all_digits _
    rw [pyFloat_digits c cs hall, ← hnr, digitsVal_natRepr]

theorem pyFloat_intRepr (n : ℤ) : pyFloat (intRepr n) = some ((n : ℚ)) := by
  unfold intRepr
  split_ifs with hneg
  · rw [pyFloat_neg_digits _ (natRepr_ne_nil _) (natRepr_all_digits _), digitsVal_natRepr]
    congr 1
    rw [Int.cast_natAbs, abs_of_neg hneg]
    push_cast
    ring
  · rw [pyFloat_natRepr_natAbs]
    congr 1
    rw [Int.cast_natAbs, abs_of_nonneg (not_lt.mp hneg)]

theorem pyFloat_numRepr {q : ℚ} (hq : FiniteDec q) : pyFloat (numRepr q) = some q := by
  by_cases hden : q.den = 1
  · rw [numRepr, if_pos hden, pyFloat_intRepr]
    congr 1
    conv_rhs => rw [← Rat.num_div_den q]
    rw [hden]
    simp
  · rw [numRepr, if_neg hden]
    show pyFloat ((if q.num < 0 then ['-'] else []) ++
      natRepr (q.num.natAbs * 10 ^ q.den / q.den / 10 ^ q.den) ++
      '.' :: padZeros q.den (natRepr (q.num.natAbs * 10 ^ q.den / q.den % 10 ^ q.den))) = some q
    have hk2 : 2 ≤ q.den := by
      have := q.pos
      omega
    have hdvd : q.den ∣ 10 ^ q.den := finiteDec_den_dvd hq
    have hdvd2 : q.den ∣ q.num.natAbs * 10 ^ q.den := Dvd.dvd.mul_left hdvd _
    have hm : (q.num.natAbs * 10 ^ q.den / q.den) * q.den = q.num.natAbs * 10 ^ q.den :=
      Nat.div_mul_cancel hdvd2
    have hpow : (0:ℕ) < 10 ^ q.den := Nat.pos_pow_of_pos _ (by norm_num)
    have hBlt : (q.num.natAbs * 10 ^ q.den / q.den) % 10 ^ q.den < 10 ^ q.den :=
      Nat.mod_lt _ hpow
    have hlenB : (natRepr ((q.num.natAbs * 10 ^ q.den / q.den) % 10 ^ q.den)).length ≤ q.den :=
      natRepr_length_le hBlt (by omega)
    have hpadlen :
        (padZeros q.den (natRepr ((q.num.natAbs * 10 ^ q.den / q.den) % 10 ^ q.den))).length =
          q.den := padZeros_length _ _ hlenB
    have hpadd : ∀ c ∈ padZeros q.den
        (natRepr ((q.num.natAbs * 10 ^ q.den / q.den) % 10 ^ q.den)), c.isDigit = true :=
      padZeros_all_digits _ _
    have hAB : (10:ℚ) ^ q.den * ((q.num.natAbs * 10 ^ q.den / q.den) / 10 ^ q.den : ℕ) +
        ((q.num.natAbs * 10 ^ q.den / q.den) % 10 ^ q.den : ℕ) =
        ((q.num.natAbs * 10 ^ q.den / q.den : ℕ) : ℚ) := by
      exact_mod_cast Nat.div_add_mod (q.num.natAbs * 10 ^ q.den / q.den) (10 ^ q.den)
    have hmQ : ((q.num.natAbs * 10 ^ q.den / q.den : ℕ) : ℚ) * (q.den : ℚ) =
        (q.num.natAbs : ℚ) * (10:ℚ) ^ q.den := by
      exact_mod_cast hm
    have hden0 : ((q.den : ℚ)) ≠ 0 := ne_of_gt (by exact_mod_cast q.pos)
    have hpow0 : ((10:ℚ) ^ q.den) ≠ 0 := by positivity
    have hval : (((q.num.natAbs * 10 ^ q.den / q.den / 10 ^ q.den : ℕ) : ℚ) * (10:ℚ) ^ q.den +
        ((q.num.natAbs * 10 ^ q.den / q.den % 10 ^ q.den : ℕ) : ℚ)) / (10:ℚ) ^ q.den =
        (q.num.natAbs : ℚ) / (q.den : ℚ) := by
      rw [div_eq_div_iff hpow0 hden0]
      linear_combination (q.den : ℚ) * hAB + hmQ
    by_cases hneg : q.num < 0
    · rw [if_pos hneg]
      show pyFloat ('-' :: (natRepr (q.num.natAbs * 10 ^ q.den / q.den / 10 ^ q.den) ++
        '.' :: padZeros q.den (natRepr (q.num.natAbs * 10 ^ q.den / q.den % 10 ^ q.den)))) =
        some q
      cases hnr : natRepr (q.num.natAbs * 10 ^ q.den / q.den / 10 ^ q.den) with
      | nil => exact absurd hnr (natRepr_ne_nil _)
      | cons c cs =>
        have hwd : ∀ x ∈ c :: cs, x.isDigit = true := by
          rw [← hnr]
          exact natRepr_all_digits _
        rw [pyFloat_neg_int_frac c cs _ hwd hpadd]
        congr 1
        rw [← hnr, digitsVal_natRepr, digitsVal_padZeros, hpadlen, hval]
        conv_rhs => rw [← Rat.num_div_den q]
        rw [show ((q.num : ℚ)) = -((q.num.natAbs : ℚ)) from by
          rw [Int.cast_natAbs, abs_of_neg hneg]
          push_cast
          ring]
        ring
    · rw [if_neg hneg]
      show pyFloat (natRepr (q.num.natAbs * 10 ^ q.den / q.den / 10 ^ q.den) ++
        '.' :: padZeros q.den (natRepr (q.num.natAbs * 10 ^ q.den / q.den % 10 ^ q.den))) =
        some q
      cases hnr : natRepr (q.num.natAbs * 10 ^ q.den / q.den / 10 ^ q.den) with
      | nil => exact absurd hnr (natRepr_ne_nil _)
      | cons c cs =>
        have hwd : ∀ x ∈ c :: cs, x.isDigit = true := by
          rw [← hnr]
          exact natRepr_all_digits _
        rw [pyFloat_int_frac c cs _ hwd hpadd]
        congr 1
        rw [← hnr, digitsVal_natRepr, digitsVal_padZeros, hpadlen, hval]
        conv_rhs => rw [← Rat.num_div_den q]
        rw [show ((q.num : ℚ)) = ((q.num.natAbs : ℚ)) from by
          rw [Int.cast_natAbs, abs_of_nonneg (not_lt.mp hneg)]]

theorem splitAux_spaces (ws : Str) (hws : ∀ c ∈ ws, pyIsSpace c = true) (acc : Str) :
    splitAux ws acc = if acc = [] then [] else [acc.reverse] := by
  induction ws generalizing acc with
  | nil => rfl
  | cons c cs ih =>
    have hc := hws c (List.mem_cons_self c cs)
    have hcs : ∀ x ∈ cs, pyIsSpace x = true := fun x hx => hws x (List.mem_cons_of_mem c hx)
    by_cases hacc : acc = []
    · simp only [splitAux, hc, if_true, hacc, if_pos rfl]
      rw [ih hcs []]
      simp
    · simp only [splitAux, hc, if_true, if_neg hacc]
      rw [ih hcs []]
      simp

theorem splitAux_append_spaces (s ws : Str) (hws : ∀ c ∈ ws, pyIsSpace c = true) (acc : Str) :
    splitAux (s ++ ws) acc = splitAux s acc := by
  induction s generalizing acc with
  | nil =>
    rw [List.nil_append, splitAux_spaces ws hws acc]
    rfl
  | cons c cs ih =>
    show splitAux (c :: (cs ++ ws)) acc = splitAux (c :: cs) acc
    by_cases hc : pyIsSpace c = true
    · by_cases hacc : acc = []
      · simp only [splitAux, hc, if_true, hacc, if_pos rfl]
        exact ih []
      · simp only [splitAux, hc, if_true, if_neg hacc]
        rw [ih []]
    · rw [Bool.not_eq_true] at hc
      simp only [splitAux, hc, Bool.false_eq_true, if_false]
      exact ih (c :: acc)

theorem splitAux_dropWhile (s : Str) :
    splitAux (s.dropWhile pyIsSpace) [] = splitAux s [] := by
  induction s with
  | nil => rfl
  | cons c cs ih =>
    by_cases hc : pyIsSpace c = true
    · rw [List.dropWhile_cons, if_pos hc, ih]
      simp [splitAux, hc]
    · rw [Bool.not_eq_true] at hc
      rw [List.dropWhile_cons, if_neg (by rw [hc]; exact Bool.false_ne_true)]

theorem pySplit_pyStrip (s : Str) : pySplit (pyStrip s) = pySplit s := by
  unfold pySplit pyStrip
  have hsplit : s.dropWhile pyIsSpace =
      ((s.dropWhile pyIsSpace).reverse.dropWhile pyIsSpace).reverse ++
        ((s.dropWhile pyIsSpace).reverse.takeWhile pyIsSpace).reverse := by
    conv_lhs => rw [← List.reverse_reverse (s.dropWhile pyIsSpace)]
    rw [← List.reverse_append, List.takeWhile_append_dropWhile]
  have hws : ∀ c ∈ ((s.dropWhile pyIsSpace).reverse.takeWhile pyIsSpace).reverse,
      pyIsSpace c = true := by
    intro c hc
    exact List.mem_takeWhile_imp (List.mem_reverse.mp hc)
  calc splitAux (((s.dropWhile pyIsSpace).reverse.dropWhile pyIsSpace).reverse) [] =
      splitAux (((s.dropWhile pyIsSpace).reverse.dropWhile pyIsSpace).reverse ++
        ((s.dropWhile pyIsSpace).reverse.takeWhile pyIsSpace).reverse) [] :=
        (splitAux_append_spaces _ _ hws []).symm
    _ = splitAux (s.dropWhile pyIsSpace) [] := by rw [← hsplit]
    _ = splitAux s [] := splitAux_dropWhile s

theorem intRepr_ne_nil (n : ℤ) : intRepr n ≠ [] := by
  unfold intRepr
  split_ifs
  · exact List.cons_ne_nil _ _
  · exact natRepr_ne_nil _

theorem intRepr_not_space (n : ℤ) : ∀ c ∈ intRepr n, pyIsSpace c = false := by
  intro c hc
  unfold intRepr at hc
  split_ifs at hc
  · rcases List.mem_cons.mp hc with rfl | hc2
    · decide
    · exact isDigit_not_space (natRepr_all_digits _ c hc2)
  · exact isDigit_not_space (natRepr_all_digits _ c hc)

theorem numRepr_ne_nil (q : ℚ) : numRepr q ≠ [] := by
  unfold numRepr
  split_ifs with h h2
  · exact intRepr_ne_nil _
  · intro hcontra
    exact List.cons_ne_nil _ _ (List.append_eq_nil.mp hcontra).2
  · intro hcontra
    exact List.cons_ne_nil _ _ (List.append_eq_nil.mp hcontra).2

theorem numRepr_not_space (q : ℚ) : ∀ c ∈ numRepr q, pyIsSpace c = false := by
  intro c hc
  unfold numRepr at hc
  split_ifs at hc with h h2
  · exact intRepr_not_space _ c hc
  · rcases List.mem_append.mp hc with h1 | hdot
    · rcases List.mem_append.mp h1 with hsign | hdigits
      · rcases List.mem_singleton.mp hsign with rfl
        decide
      · exact isDigit_not_space (natRepr_all_digits _ c hdigits)
    · rcases List.mem_cons.mp hdot with rfl | hpad
      · decide
      · exact isDigit_not_space (padZeros_all_digits _ _ c hpad)
  · rcases List.mem_append.mp hc with h1 | hdot
    · rcases List.mem_append.mp h1 with hsign | hdigits
      · exact absurd hsign (List.not_mem_nil c)
      · exact isDigit_not_space (natRepr_all_digits _ c hdigits)
    · rcases List.mem_cons.mp hdot with rfl | hpad
      · decide
      · exact isDigit_not_space (padZeros_all_digits _ _ c hpad)

theorem intValued_finiteDec {q : ℚ} (h : IntValued q) : FiniteDec q := by
  rcases h with ⟨n, rfl⟩
  exact ⟨n, 0, by norm_num⟩

theorem to_line_tokens (p : LDrawType1) :
    LDrawType1.to_line p =
      joinSp [['1'], intRepr p.color, numRepr p.x, numRepr p.y, numRepr p.z,
        numRepr p.a, numRepr p.b, numRepr p.c, numRepr p.d, numRepr p.e,
        numRepr p.f, numRepr p.g, numRepr p.h, numRepr p.i, p.part_id] := by
  simp [LDrawType1.to_line, joinSp]

theorem pySplit_to_line (p : LDrawType1)
    (hpe : p.part_id ≠ []) (hps : ∀ c ∈ p.part_id, pyIsSpace c = false) :
    pySplit (pyStrip (LDrawType1.to_line p)) =
      [['1'], intRepr p.color, numRepr p.x, numRepr p.y, numRepr p.z,
       numRepr p.a, numRepr p.b, numRepr p.c, numRepr p.d, numRepr p.e,
       numRepr p.f, numRepr p.g, numRepr p.h, numRepr p.i, p.part_id] := by
  rw [pySplit_pyStrip, to_line_tokens]
  apply pySplit_joinSp _ (by simp)
  intro t ht
  simp only [List.mem_cons, List.not_mem_nil, or_false] at ht
  rcases ht with rfl | rfl | rfl | rfl | rfl | rfl | rfl | rfl | rfl | rfl | rfl | rfl | rfl | rfl | rfl
  · exact ⟨by decide, by decide⟩
  · exact ⟨intRepr_ne_nil _, intRepr_not_space _⟩
  · exact ⟨numRepr_ne_nil _, numRepr_not_space _⟩
  · exact ⟨numRepr_ne_nil _, numRepr_not_space _⟩
  · exact ⟨numRepr_ne_nil _, numRepr_not_space _⟩
  · exact ⟨numRepr_ne_nil _, numRepr_not_space _⟩
  · exact ⟨numRepr_ne_nil _, numRepr_not_space _⟩
  · exact ⟨numRepr_ne_nil _, numRepr_not_space _⟩
  · exact ⟨numRepr_ne_nil _, numRepr_not_space _⟩
  · exact ⟨numRepr_ne_nil _, numRepr_not_space _⟩
  · exact ⟨numRepr_ne_nil _, numRepr_not_space _⟩
  · exact ⟨numRepr_ne_nil _, numRepr_not_space _⟩
  · exact ⟨numRepr_ne_nil _, numRepr_not_space _⟩
  · exact ⟨numRepr_ne_nil _, numRepr_not_space _⟩
  · exact ⟨hpe, hps⟩

/-- C5: serialization round-trips through the parser.  For every placement whose
position coordinates `x, y, z` are integer-valued (as template normalization
produces), whose orientation scalars are finite decimals (as every Python float
is), and whose `part_id` is a nonempty whitespace-free token,
`LDrawType1.parse (LDrawType1.to_line p)` succeeds and returns a record equal
to `p` in every field. -/
theorem to_line_parse_round_trip (p : LDrawType1)
    (hx : IntValued p.x) (hy : IntValued p.y) (hz : IntValued p.z)
    (ha : FiniteDec p.a) (hb : FiniteDec p.b) (hc : FiniteDec p.c)
    (hd : FiniteDec p.d) (he : FiniteDec p.e) (hf : FiniteDec p.f)
    (hg : FiniteDec p.g) (hh : FiniteDec p.h) (hi : FiniteDec p.i)
    (hpe : p.part_id ≠ []) (hps : ∀ c ∈ p.part_id, pyIsSpace c = false) :
    LDrawType1.parse (LDrawType1.to_line p) = Except.ok p := by
  rw [LDrawType1.parse, pySplit_to_line p hpe hps]
  simp only [parseTokens, if_pos rfl]
  rw [pyInt_intRepr, pyFloat_numRepr (intValued_finiteDec hx),
    pyFloat_numRepr (intValued_finiteDec hy), pyFloat_numRepr (intValued_finiteDec hz),
    pyFloat_numRepr ha, pyFloat_numRepr hb, pyFloat_numRepr hc, pyFloat_numRepr hd,
    pyFloat_numRepr he, pyFloat_numRepr hf, pyFloat_numRepr hg, pyFloat_numRepr hh,
    pyFloat_numRepr hi]
  rfl

theorem to_line_parse_round_trip_witness :
    LDrawType1.parse (LDrawType1.to_line rtPart) = Except.ok rtPart :=
  to_line_parse_round_trip rtPart
    ⟨3, by norm_num [rtPart]⟩ ⟨-24, by norm_num [rtPart]⟩ ⟨0, by norm_num [rtPart]⟩
    ⟨1, 0, by norm_num [rtPart]⟩ ⟨-5, 1, by norm_num [rtPart]⟩ ⟨0, 0, by norm_num [rtPart]⟩
    ⟨0, 0, by norm_num [rtPart]⟩ ⟨1, 0, by norm_num [rtPart]⟩ ⟨0, 0, by norm_num [rtPart]⟩
    ⟨0, 0, by norm_num [rtPart]⟩ ⟨0, 0, by norm_num [rtPart]⟩ ⟨1, 0, by norm_num [rtPart]⟩
    (by decide) (by decide)

theorem mapE_error_iff (g : Str → Except ParseErr LDrawType1) (l : List Str) :
    (∃ e, mapE g l = Except.error e) ↔ ∃ x ∈ l, ∃ e, g x = Except.error e := by
  induction l with
  | nil => simp [mapE]
  | cons a l ih =>
    constructor
    · rintro ⟨e, he⟩
      rw [mapE] at he
      cases ha : g a with
      | error e2 => exact ⟨a, List.mem_cons_self a l, e2, ha⟩
      | ok p =>
        rw [ha] at he
        cases hl : mapE g l with
        | error e2 =>
          obtain ⟨x, hx, hfx⟩ := ih.mp ⟨e2, hl⟩
          exact ⟨x, List.mem_cons_of_mem a hx, hfx⟩
        | ok ps => rw [hl] at he; exact absurd he (by simp)
    · rintro ⟨x, hx, e, hfx⟩
      rcases List.mem_cons.mp hx with rfl | hx2
      · cases hml : mapE g l with
        | error e2 => exact ⟨e, by rw [mapE, hfx, hml]⟩
        | ok ps => exact ⟨e, by rw [mapE, hfx, hml]⟩
      · obtain ⟨e2, he2⟩ := ih.mpr ⟨x, hx2, e, hfx⟩
        cases ha : g a with
        | error e3 => exact ⟨e3, by rw [mapE, ha, he2]⟩
        | ok p => exact ⟨e2, by rw [mapE, ha, he2]⟩

theorem mapE_ok_length (g : Str → Except ParseErr LDrawType1) (l : List Str) :
    ∀ ps, mapE g l = Except.ok ps → ps.length = l.length := by
  induction l with
  | nil =>
    intro ps h
    rw [mapE] at h
    rw [← Except.ok.inj h]
    rfl
  | cons a l ih =>
    intro ps h
    rw [mapE] at h
    cases ha : g a with
    | error e => rw [ha] at h; exact absurd h (by simp)
    | ok p =>
      rw [ha] at h
      cases hl : mapE g l with
      | error e => rw [hl] at h; exact absurd h (by simp)
      | ok ps2 =>
        rw [hl] at h
        rw [← Except.ok.inj h]
        simp [ih ps2 hl]

theorem collect_eq (lines : List Str) :
    collectRecords lines =
      mapE (fun l => LDrawType1.parse (pyStrip l)) (lines.filter keepLine) := by
  induction lines with
  | nil => rfl
  | cons raw rest ih =>
    by_cases h1 : (decide (pyStrip raw = []) || ['0'].isPrefixOf (pyStrip raw)) = true
    · have hk : keepLine raw = false := by
        simp only [keepLine]
        rw [if_pos h1]
      have hc : collectRecords (raw :: rest) = collectRecords rest := by
        simp only [collectRecords]
        rw [if_pos h1]
      rw [hc, List.filter_cons, if_neg (by simp [hk]), ih]
    · by_cases h2 : List.isPrefixOf ['1', ' '] (pyStrip raw) = true
      · have hk : keepLine raw = true := by
          simp only [keepLine]
          rw [if_neg h1]
          exact h2
        have hc : collectRecords (raw :: rest) =
            match LDrawType1.parse (pyStrip raw), collectRecords rest with
            | Except.ok p, Except.ok ps => Except.ok (p :: ps)
            | Except.error e, _ => Except.error e
            | _, Except.error e => Except.error e := by
          simp only [collectRecords]
          rw [if_neg h1, if_pos h2]
        rw [List.filter_cons, if_pos (by simp [hk]), hc, ih]
        simp only [mapE]
      · have hk : keepLine raw = false := by
          simp only [keepLine]
          rw [if_neg h1]
          exact Bool.eq_false_iff.mpr (fun hc2 => h2 (by rw [hc2]))
        have hc : collectRecords (raw :: rest) = collectRecords rest := by
          simp only [collectRecords]
          rw [if_neg h1, if_neg h2]
        rw [hc, List.filter_cons, if_neg (by simp [hk]), ih]

/-- C6 (amended): `load_template` raises an error if and only if some kept
line (non-blank, not a comment, starting with "1 ") fails `LDrawType1.parse`
— whether from too few fields, a wrong discriminator after stripping, or a
failing numeric conversion — or no line at all is kept; on success it returns
the parses of the kept lines in source order, and skipped lines never cause
failure. -/
theorem load_template_characterization (lines : List Str) :
    ((∃ e, load_template lines = Except.error e) ↔
      ((∃ l ∈ lines, keepLine l = true ∧
          ∃ e, LDrawType1.parse (pyStrip l) = Except.error e) ∨
        lines.filter keepLine = [])) ∧
    (∀ ps, load_template lines = Except.ok ps →
      mapE (fun l => LDrawType1.parse (pyStrip l)) (lines.filter keepLine) =
        Except.ok ps) := by
  constructor
  · constructor
    · rintro ⟨e, he⟩
      rw [load_template, collect_eq] at he
      cases hm : mapE (fun l => LDrawType1.parse (pyStrip l)) (lines.filter keepLine) with
      | error e2 =>
        obtain ⟨x, hx, hfx⟩ := (mapE_error_iff _ _).mp ⟨e2, hm⟩
        exact Or.inl ⟨x, (List.mem_filter.mp hx).1, (List.mem_filter.mp hx).2, hfx⟩
      | ok ps =>
        rw [hm] at he
        cases ps with
        | nil =>
          right
          have := mapE_ok_length _ _ [] hm
          exact List.eq_nil_of_length_eq_zero this.symm
        | cons p ps2 => exact absurd he (by simp)
    · rintro (⟨l, hl, hk, e, he⟩ | hfil)
      · obtain ⟨e2, he2⟩ := (mapE_error_iff (fun l => LDrawType1.parse (pyStrip l))
          (lines.filter keepLine)).mpr ⟨l, List.mem_filter.mpr ⟨hl, hk⟩, e, he⟩
        refine ⟨LoadErr.record e2, ?_⟩
        rw [load_template, collect_eq, he2]
      · refine ⟨LoadErr.empty, ?_⟩
        rw [load_template, collect_eq, hfil]
        rfl
  · intro ps h
    rw [load_template, collect_eq] at h
    cases hm : mapE (fun l => LDrawType1.parse (pyStrip l)) (lines.filter keepLine) with
    | error e => rw [hm] at h; exact absurd h (by simp)
    | ok ps2 =>
      rw [hm] at h
      cases ps2 with
      | nil => exact absurd h (by simp)
      | cons p ps3 =>
        have h2 : (Except.ok (p :: ps3) : Except LoadErr (List LDrawType1)) = Except.ok ps := h
        rw [Except.ok.inj h2]

/-- C6 counterexample: on the two-line source `[demoGoodLine, demoBadLine]`
every line is kept and has the full 15 whitespace-separated tokens (so at
least 14 fields after the "1" discriminator), and the first line yields a
usable record, yet `load_template` raises: the color token "a" of the second
line fails the `int(...)` conversion, an error mode outside the claimed
"fewer than 14 fields" / "zero usable records" dichotomy. -/
theorem load_template_error_beyond_claim :
    load_template [demoGoodLine, demoBadLine] =
        Except.error (LoadErr.record ParseErr.badNum) ∧
    (∀ l ∈ [demoGoodLine, demoBadLine],
      keepLine l = true ∧ (pySplit (pyStrip l)).length = 15 ∧
        (pySplit (pyStrip l)).headI = ['1']) ∧
    (∃ p, LDrawType1.parse (pyStrip demoGoodLine) = Except.ok p) :=
  ⟨rfl, by decide, ⟨_, rfl⟩⟩

theorem load_template_characterization_witness :
    (∃ l ∈ [demoBadLine], keepLine l = true ∧
        ∃ e, LDrawType1.parse (pyStrip l) = Except.error e) ∨
      [demoBadLine].filter keepLine = [] :=
  (load_template_characterization [demoBadLine]).1.mp
    ⟨LoadErr.record ParseErr.badNum, rfl⟩

/-- C10 (amended): the shape conditions of `LDrawType1.parse` — fewer than 15
whitespace-separated tokens always raises, 15 or more tokens with a first
token other than "1" raises the "Not a type-1 line" error, every token after
the 15th is silently discarded (so a whitespace-containing part reference is
truncated), and a successful parse takes its `part_id` from exactly the 15th
token — but a 15-token "1"-headed line can still raise through a failing
`int(...)`/`float(...)` conversion, so the claimed "if and only if" fails. -/
theorem parseTokens_characterization :
    (∀ ts : List Str, ts.length < 15 →
      parseTokens ts = Except.error ParseErr.notType1) ∧
    (∀ ts : List Str, ts.headI ≠ ['1'] →
      parseTokens ts = Except.error ParseErr.notType1) ∧
    (∀ t0 t1 t2 t3 t4 t5 t6 t7 t8 t9 tA tB tC tD tE : Str, ∀ rest : List Str,
      parseTokens (t0 :: t1 :: t2 :: t3 :: t4 :: t5 :: t6 :: t7 :: t8 :: t9 ::
          tA :: tB :: tC :: tD :: tE :: rest) =
        parseTokens [t0, t1, t2, t3, t4, t5, t6, t7, t8, t9, tA, tB, tC, tD, tE]) ∧
    (∀ t0 t1 t2 t3 t4 t5 t6 t7 t8 t9 tA tB tC tD tE : Str, ∀ rest : List Str,
      ∀ p : LDrawType1,
      parseTokens (t0 :: t1 :: t2 :: t3 :: t4 :: t5 :: t6 :: t7 :: t8 :: t9 ::
          tA :: tB :: tC :: tD :: tE :: rest) = Except.ok p → p.part_id = tE) := by
  refine ⟨?_, ?_, ?_, ?_⟩
  · intro ts h
    rcases ts with _ | ⟨t0, _ | ⟨t1, _ | ⟨t2, _ | ⟨t3, _ | ⟨t4, _ | ⟨t5, _ | ⟨t6,
      _ | ⟨t7, _ | ⟨t8, _ | ⟨t9, _ | ⟨tA, _ | ⟨tB, _ | ⟨tC, _ | ⟨tD, _ |
      ⟨tE, rest⟩⟩⟩⟩⟩⟩⟩⟩⟩⟩⟩⟩⟩⟩⟩ <;>
      first
        | exact rfl
        | (exfalso; simp only [List.length_cons] at h; omega)
  · intro ts h
    rcases ts with _ | ⟨t0, _ | ⟨t1, _ | ⟨t2, _ | ⟨t3, _ | ⟨t4, _ | ⟨t5, _ | ⟨t6,
      _ | ⟨t7, _ | ⟨t8, _ | ⟨t9, _ | ⟨tA, _ | ⟨tB, _ | ⟨tC, _ | ⟨tD, _ |
      ⟨tE, rest⟩⟩⟩⟩⟩⟩⟩⟩⟩⟩⟩⟩⟩⟩⟩ <;>
      first
        | exact rfl
        | (simp only [parseTokens]
           rw [if_neg (by simpa using h)])
  · intro t0 t1 t2 t3 t4 t5 t6 t7 t8 t9 tA tB tC tD tE rest
    rfl
  · intro t0 t1 t2 t3 t4 t5 t6 t7 t8 t9 tA tB tC tD tE rest p h
    simp only [parseTokens] at h
    by_cases h0 : t0 = ['1']
    · rw [if_pos h0] at h
      split at h
      · rw [← (Except.ok.inj h)]
      · exact absurd h (by simp)
    · rw [if_neg h0] at h
      exact absurd h (by simp)

/-- C10 counterexample: `demoBadLine` has exactly 15 whitespace-separated
tokens and its first token is "1", yet `LDrawType1.parse` raises — the color
token "a" fails the `int(...)` conversion — refuting the claimed
"raises if and only if fewer than 15 tokens or first token not 1". -/
theorem parse_error_with_good_shape :
    LDrawType1.parse demoBadLine = Except.error ParseErr.badNum ∧
    (pySplit (pyStrip demoBadLine)).length = 15 ∧
    (pySplit (pyStrip demoBadLine)).headI = ['1'] :=
  ⟨rfl, by decide, by decide⟩

theorem parseTokens_characterization_witness :
    parseTokens [['1']] = Except.error ParseErr.notType1 ∧
      parseTokens [['2'], ['0'], ['0'], ['0'], ['0'], ['0'], ['0'], ['0'], ['0'],
          ['0'], ['0'], ['0'], ['0'], ['0'], ['0']] =
        Except.error ParseErr.notType1 :=
  ⟨parseTokens_characterization.1 [['1']] (by decide),
   parseTokens_characterization.2.1 [['2'], ['0'], ['0'], ['0'], ['0'], ['0'], ['0'],
      ['0'], ['0'], ['0'], ['0'], ['0'], ['0'], ['0'], ['0']] (by decide)⟩
